import Mathlib

/-!
Verification of the `route` declarative HTTP router (Go) against its
natural-language specification.

The development shallowly embeds the router's core subsystems:

* the path-matching trie (`node`, `node.Handler`, `route.addFixedToPath`,
  `route.addVarToPath`) — here `Node`, `Node.Handler`, `addRoute`, `ensurePath`;
* registration (`router.routeOption`, `routeHandler`, `New`) — here
  `routeOption`, `compileLoop`, `routeHandler`, `build`;
* path normalization (`splitPath`, `url.PathUnescape`) — here `splitPath`,
  `pathUnescape`;
* the request execution engine (`handleRoute` with its deferred closers, and
  `combinedFieldModifier`) — here `handleRouteExec`, `runCloserStack`,
  `combinedRun`, `combCloseLoop`.

Handlers are abstracted by a type parameter `H` (in Go, `http.Handler`
values); `reflect.Type` is abstracted by a string tag; field modifiers and
closers are abstracted by their observable behaviour (returned closer /
error / panic), since the router treats them as opaque functions.
-/

/-- A path-pattern step produced by the only two trie-mutating operations
reachable from the public option surface: `route.addFixedToPath name`
(a literal segment) and `route.addVarToPath` (a single-slot variable
segment).  The `node` struct's fields are package-private in Go, so a
`FieldOption` can touch the trie only through these two methods. -/
inductive Step where
  | fixed (s : String)
  | var
deriving DecidableEq

/-- Go `type node struct { childs map[string]*node; child *node;
allowRemainder bool; handler http.Handler }` (src/unnamed/part_002,
lines 120-125).  The `childs` map is modelled as an association list with
unique keys (`insertChild` replaces in place); `handler http.Handler` is
`Option H` (`nil` = `none`). -/
inductive Node (H : Type) : Type where
  | mk (childs : List (String × Node H)) (child : Option (Node H))
       (allowRemainder : Bool) (handler : Option H)

/-- Projection: the static-children map `n.childs`. -/
def Node.childs {H : Type} : Node H → List (String × Node H)
  | .mk cs _ _ _ => cs

/-- Projection: the dynamic child `n.child`. -/
def Node.child {H : Type} : Node H → Option (Node H)
  | .mk _ c _ _ => c

/-- Projection: the catch-all flag `n.allowRemainder`. -/
def Node.allowRemainder {H : Type} : Node H → Bool
  | .mk _ _ ar _ => ar

/-- Projection: the bound handler `n.handler` (`none` = Go `nil`). -/
def Node.handler {H : Type} : Node H → Option H
  | .mk _ _ _ h => h

/-- Go `&node{}`: the zero value of the node struct. -/
def emptyNode {H : Type} : Node H := .mk [] none false none

/-- Go map read `n.childs[first]` (comma-ok form). -/
def findChild {H : Type} : List (String × Node H) → String → Option (Node H)
  | [], _ => none
  | (b, m) :: rest, a => if b = a then some m else findChild rest a

/-- Go map write `childs[name] = next`: replace the binding in place if the
key is present, otherwise append it. -/
def insertChild {H : Type} : List (String × Node H) → String → Node H → List (String × Node H)
  | [], a, n => [(a, n)]
  | (b, m) :: rest, a, n => if b = a then (a, n) :: rest else (b, m) :: insertChild rest a n

/-- Go `func (n node) Handler(path []string) (http.Handler, bool)`
(src/unnamed/part_002, lines 127-144), transcribed branch for branch:

* empty path: `return n.handler, n.handler != nil`;
* static child present and its recursive call succeeds: return that result;
* otherwise, if a dynamic child exists: return its recursive result
  unconditionally (`return n.child.Handler(path[1:])`);
* otherwise, if `n.allowRemainder`: `return n.handler, true`;
* otherwise `return nil, false`. -/
def Node.Handler {H : Type} : Node H → List String → Option H × Bool
  | n, [] => (n.handler, n.handler.isSome)
  | n, first :: rest =>
    let fb : Option H × Bool :=
      match n.child with
      | some c => Node.Handler c rest
      | none => if n.allowRemainder then (n.handler, true) else (none, false)
    match findChild n.childs first with
    | some child =>
      match Node.Handler child rest with
      | (h, true) => (h, true)
      | (_, false) => fb
    | none => fb

/-- The pure composition of the cursor walk a route registration performs
(src/unnamed/part_002, lines 80-99) followed by the final
`route.node.handler = httpHandler` assignment (src/unnamed/part_001,
line 70): at each `Step.fixed name` the existing static child keyed by
`name` is reused or a fresh `&node{}` is linked (`addFixedToPath`); at
each `Step.var` the single dynamic child is reused or freshly created
(`addVarToPath`); at the end of the step list the cursor node's handler
is overwritten with `some h` (last write wins). -/
def addRoute {H : Type} : Node H → List Step → H → Node H
  | n, [], h => .mk n.childs n.child n.allowRemainder (some h)
  | n, .fixed a :: s, h =>
    let c := match findChild n.childs a with
      | some c => c
      | none => emptyNode
    .mk (insertChild n.childs a (addRoute c s h)) n.child n.allowRemainder n.handler
  | n, .var :: s, h =>
    let c := match n.child with
      | some c => c
      | none => emptyNode
    .mk n.childs (some (addRoute c s h)) n.allowRemainder n.handler

/-- The node-creating part of the cursor walk alone, with no handler
assignment: the trie mutation that `addFixedToPath`/`addVarToPath` have
already performed when a later field of the same route fails to compile
(the Go code has no rollback; the handler is simply never bound). -/
def ensurePath {H : Type} : Node H → List Step → Node H
  | n, [] => n
  | n, .fixed a :: s =>
    let c := match findChild n.childs a with
      | some c => c
      | none => emptyNode
    .mk (insertChild n.childs a (ensurePath c s)) n.child n.allowRemainder n.handler
  | n, .var :: s =>
    let c := match n.child with
      | some c => c
      | none => emptyNode
    .mk n.childs (some (ensurePath c s)) n.allowRemainder n.handler

/-- All handlers bound anywhere in the (sub)trie, in traversal order:
the node's own handler, then the static subtrees, then the dynamic
subtree.  Used to state "no handler was installed". -/
def boundHandlers {H : Type} : Node H → List H
  | .mk cs c _ h =>
    h.toList ++ boundHandlersList cs ++
      (match c with
       | some d => boundHandlers d
       | none => [])
where
  /-- Collect `boundHandlers` over an association list of static children. -/
  boundHandlersList : List (String × Node H) → List H
    | [] => []
    | (_, m) :: rest => boundHandlers m ++ boundHandlersList rest

/-- Holds when `allowRemainder` is `false` at this node and every node below it. -/
def noRemainder {H : Type} : Node H → Bool
  | .mk cs c ar _ =>
    !ar && noRemainderList cs &&
      (match c with
       | some d => noRemainder d
       | none => true)
where
  /-- Check `noRemainder` over an association list of static children. -/
  noRemainderList : List (String × Node H) → Bool
    | [] => true
    | (_, m) :: rest => noRemainder m && noRemainderList rest

/-- Lookup as `node.Handler` but with the `allowRemainder` branch deleted: the
fallback when the static attempt is absent or failed and no dynamic
child exists is plain failure. -/
def Node.HandlerNR {H : Type} : Node H → List String → Option H × Bool
  | n, [] => (n.handler, n.handler.isSome)
  | n, first :: rest =>
    let fb : Option H × Bool :=
      match n.child with
      | some c => Node.HandlerNR c rest
      | none => (none, false)
    match findChild n.childs first with
    | some child =>
      match Node.HandlerNR child rest with
      | (h, true) => (h, true)
      | (_, false) => fb
    | none => fb

/-- A struct field of a route's input type, as `routeHandler` observes it
through `reflect`: its name, its declared type (abstracted to a string
tag standing for `reflect.Type`), and whether it is exported. -/
structure FieldSpec where
  name : String
  typ : String
  exported : Bool
deriving DecidableEq

/-- A registered `FieldOption`'s compile-time behaviour: given the field,
the path steps it pushes through `addFixedToPath`/`addVarToPath` (in
order, before any failure) and `none` on success or `some e` if the
option itself fails to compile.  Request-time behaviour is modelled
separately (`FMod`), since registration never runs it. -/
def FOpt : Type := FieldSpec → List Step × Option String

/-- Go `type router struct` (src/unnamed/part_002, lines 9-23): the four
per-method trie roots and the two field-option registries.  The response
encoder, error handler and middleware chain are opaque collaborators and
are modelled at the execution layer instead. -/
structure RouterS (H : Type) where
  get : Node H
  post : Node H
  put : Node H
  delete : Node H
  nameRouteOptions : List (String × FOpt)
  typeRouteOptions : List (String × FOpt)

/-- Go `router{}`: the zero-valued router New starts from. -/
def emptyRouter {H : Type} : RouterS H :=
  ⟨emptyNode, emptyNode, emptyNode, emptyNode, [], []⟩

/-- Go map read for a registry keyed by field name or type tag. -/
def lookupAssoc : List (String × FOpt) → String → Option FOpt
  | [], _ => none
  | (b, o) :: rest, a => if b = a then some o else lookupAssoc rest a

/-- Go map write for a registry (`addNameRouteOption` /
`addTypeRouteOption`, src/unnamed/part_002, lines 50-62): replace the
binding in place if present, else append. -/
def insertAssoc : List (String × FOpt) → String → FOpt → List (String × FOpt)
  | [], a, o => [(a, o)]
  | (b, p) :: rest, a, o => if b = a then (a, o) :: rest else (b, p) :: insertAssoc rest a o

/-- Go `func (r *router) routeOption(field reflect.StructField)
(FieldOption[any], bool)` (src/unnamed/part_002, lines 64-73): the
name-keyed registry is consulted first; only when it has no entry is the
type-keyed registry consulted. -/
def routeOption {H : Type} (r : RouterS H) (f : FieldSpec) : Option FOpt :=
  match lookupAssoc r.nameRouteOptions f.name with
  | some named => some named
  | none => lookupAssoc r.typeRouteOptions f.typ

/-- The field loop of `routeHandler` (src/unnamed/part_001, lines 43-58),
with the mutable trie cursor modelled as the step path from the root
walked so far (`cur`) plus the root with all nodes created so far
(`root`).  Per field, in declaration order: an unexported field aborts
with `field <name> is not exported` before any option resolution; an
unbound field aborts with `no option for field <name> type <type>`; an
option's own compile error aborts with that error; node creation already
performed by earlier (sub)options is kept, matching Go's in-place
mutation. -/
def compileLoop {H : Type} (r : RouterS H) : List FieldSpec → Node H → List Step → Node H × List Step × Option String
  | [], root, cur => (root, cur, none)
  | f :: fs, root, cur =>
    if f.exported = false then
      (root, cur, some ("field " ++ f.name ++ " is not exported"))
    else
      match routeOption r f with
      | none => (root, cur, some ("no option for field " ++ f.name ++ " type " ++ f.typ))
      | some opt =>
        let res := opt f
        let root2 := ensurePath root (cur ++ res.1)
        match res.2 with
        | some e => (root2, cur ++ res.1, some e)
        | none => compileLoop r fs root2 (cur ++ res.1)

/-- Go `func routeHandler[Input, Output any](router *router, node *node,
handler ...) error` (src/unnamed/part_001, lines 35-72): compile every
field against the registries, and only if all succeed bind the handler
at the final cursor node (`route.node.handler = httpHandler`).  Returns
the updated root (Go mutates it through the node pointer) and the
registration error, if any. -/
def routeHandler {H : Type} (r : RouterS H) (root : Node H) (fields : List FieldSpec) (h : H) : Node H × Option String :=
  match compileLoop r fields root [] with
  | (root2, cur, none) => (addRoute root2 cur h, none)
  | (root2, _, some e) => (root2, some e)

/-- The four route-registering public options `Get`/`Post`/`Put`/`Delete`
(src/unnamed/part_001, lines 143-165) select which trie root a
registration targets. -/
inductive RMethod where
  | mget
  | mpost
  | mput
  | mdelete
deriving DecidableEq

/-- The HTTP method string each registering option serves. -/
def RMethod.str : RMethod → String
  | .mget => "GET"
  | .mpost => "POST"
  | .mput => "PUT"
  | .mdelete => "DELETE"

/-- The trie root owned by a registration method. -/
def RouterS.root {H : Type} (r : RouterS H) : RMethod → Node H
  | .mget => r.get
  | .mpost => r.post
  | .mput => r.put
  | .mdelete => r.delete

/-- Replace the trie root owned by a registration method. -/
def RouterS.setRoot {H : Type} (r : RouterS H) : RMethod → Node H → RouterS H
  | .mget, n => { r with get := n }
  | .mpost, n => { r with post := n }
  | .mput, n => { r with put := n }
  | .mdelete, n => { r with delete := n }

/-- Go `func (r *router) Node(method string) node` (src/unnamed/part_002,
lines 25-40): `HEAD` falls through to the GET root; `POST`, `PUT`,
`DELETE` own their roots; any other method gets the empty `node{}` and
hence always misses. -/
def RouterS.node {H : Type} (r : RouterS H) (method : String) : Node H :=
  if method = "HEAD" then r.get
  else if method = "GET" then r.get
  else if method = "POST" then r.post
  else if method = "PUT" then r.put
  else if method = "DELETE" then r.delete
  else emptyNode

/-- One functional option handed to `New` (src/unnamed/part_001, lines
12-18), restricted to the configuration the claims concern: `ByName` and
`ByType` populate the registries (src/fields.go, lines 250-271), and a
`Get`/`Post`/`Put`/`Delete` registration runs `routeHandler` against the
corresponding root. -/
inductive OptionR (H : Type) where
  | byName (name : String) (opt : FOpt)
  | byType (t : String) (opt : FOpt)
  | handle (m : RMethod) (fields : List FieldSpec) (h : H)

/-- Apply one option to the router under construction, returning the
updated router and the option's error, if any (Go `opt(&router)`). -/
def applyOption {H : Type} (r : RouterS H) : OptionR H → RouterS H × Option String
  | .byName n o => ({ r with nameRouteOptions := insertAssoc r.nameRouteOptions n o }, none)
  | .byType t o => ({ r with typeRouteOptions := insertAssoc r.typeRouteOptions t o }, none)
  | .handle m fields h =>
    let res := routeHandler r (r.root m) fields h
    (r.setRoot m res.1, res.2)

/-- The option-application loop of `New` from a given intermediate
router: the first failing option aborts construction and its error is
returned (`return nil, err`); no handler function is produced. -/
def buildFrom {H : Type} (r : RouterS H) : List (OptionR H) → Except String (RouterS H)
  | [] => .ok r
  | o :: os =>
    match applyOption r o with
    | (r2, none) => buildFrom r2 os
    | (_, some e) => .error e

/-- Go `func New(opts ...Option) (http.HandlerFunc, error)`
(src/unnamed/part_001, lines 12-18): fold the options over the zero
router. -/
def build {H : Type} (opts : List (OptionR H)) : Except String (RouterS H) :=
  buildFrom emptyRouter opts

/-- A request URL as `splitPath` observes it: Go's `url.URL.Path`
(decoded) and `url.URL.RawPath` (the raw encoding, which `net/url`
leaves empty whenever it coincides with the default encoding of
`Path`). -/
structure URL where
  path : String
  rawPath : String
deriving DecidableEq

/-- Go `strings.Split(s, "/")` on characters: greedy split at every
slash, empty string giving the singleton `[""]`. -/
def splitSlashChars : List Char → List (List Char)
  | [] => [[]]
  | c :: rest =>
    match splitSlashChars rest with
    | seg :: segs => if c = '/' then [] :: seg :: segs else (c :: seg) :: segs
    | [] => [[]]

/-- Go `strings.Split(s, "/")` as a `String` operation. -/
def splitSlash (s : String) : List String :=
  (splitSlashChars s.data).map (fun l => String.mk l)

/-- Go `ishex` (net/url): ASCII hex digit to its value. -/
def hexVal (c : Char) : Option Nat :=
  if '0' ≤ c ∧ c ≤ '9' then some (c.toNat - '0'.toNat)
  else if 'a' ≤ c ∧ c ≤ 'f' then some (c.toNat - 'a'.toNat + 10)
  else if 'A' ≤ c ∧ c ≤ 'F' then some (c.toNat - 'A'.toNat + 10)
  else none

/-- Go `url.PathUnescape` on the character list: every `%XY` with two hex
digits becomes the byte `16*X+Y`, a `%` not followed by two hex digits is
an `EscapeError`, every other character passes through unchanged (path
mode never translates `+`). Bytes of a multi-byte UTF-8 escape are kept
as individual code points, matching Go's byte strings. -/
def pathUnescapeChars : List Char → Option (List Char)
  | [] => some []
  | '%' :: c1 :: c2 :: rest =>
    match hexVal c1, hexVal c2 with
    | some h1, some h2 =>
      match pathUnescapeChars rest with
      | some out => some (Char.ofNat (16 * h1 + h2) :: out)
      | none => none
    | _, _ => none
  | '%' :: _ => none
  | c :: rest =>
    match pathUnescapeChars rest with
    | some out => some (c :: out)
    | none => none

/-- Go `url.PathUnescape` as a `String` operation (`none` = error). -/
def pathUnescape (s : String) : Option String :=
  (pathUnescapeChars s.data).map (fun l => String.mk l)

/-- The per-segment decode loop of `splitPath` (src/unnamed/part_001,
lines 132-139): decode each raw segment once, failing fast on the first
`EscapeError`. -/
def decodeSegs : List String → Except String (List String)
  | [] => .ok []
  | p :: ps =>
    match pathUnescape p with
    | none => .error ("url.PathUnescape: invalid URL escape in " ++ p)
    | some s =>
      match decodeSegs ps with
      | .ok rest => .ok (s :: rest)
      | .error e => .error e

/-- Go `func splitPath(link *url.URL) ([]string, error)`
(src/unnamed/part_001, lines 128-141): when `RawPath` is empty (raw and
decoded representations coincide) split the decoded path on `/` and drop
the leading empty segment; otherwise split the raw path, drop the
leading empty segment, and percent-decode each segment exactly once,
failing on the first invalid escape. -/
def splitPath (u : URL) : Except String (List String) :=
  if u.rawPath = "" then .ok ((splitSlash u.path).drop 1)
  else decodeSegs ((splitSlash u.rawPath).drop 1)

/-- What the closure returned by `New` does with a request, abstracted
from the writer: a 400 from a path-decoding failure, a 404 when the trie
lookup reports no handler, or dispatch to the looked-up handler (`none`
models Go's nil handler, which the remainder branch can report as
found). -/
inductive ServeResult (H : Type) where
  | badRequest (e : String)
  | notFound
  | handled (h : Option H)
deriving DecidableEq

/-- The serving core of `New` after path normalization
(src/unnamed/part_001, lines 26-31): look the segments up in the
method's trie and dispatch, or answer 404. -/
def servePath {H : Type} (r : RouterS H) (method : String) (path : List String) : ServeResult H :=
  match (r.node method).Handler path with
  | (h, true) => .handled h
  | (_, false) => .notFound

/-- The full request closure returned by `New` (src/unnamed/part_001,
lines 19-32): normalize the path, answering 400 on a decode failure
before any lookup, then serve. -/
def serveURL {H : Type} (r : RouterS H) (method : String) (u : URL) : ServeResult H :=
  match splitPath u with
  | .error e => .badRequest e
  | .ok path => servePath r method path

/-- A cleanup (`func(error) error`) acquired during a request, identified
for trace purposes and abstracted by its observable behaviour: the error
it returns as a function of the terminal error it is handed.  Closers
are assumed not to panic themselves (none of the repository's closers
do). -/
structure CloserSpec where
  id : Nat
  f : Option String → Option String

/-- The observable behaviour of one compiled field modifier
(`fieldModifier[any]`, i.e. `func(*request, T) (func(error) error, error)`)
when invoked on the request: it returns normally with an optional
cleanup, returns an error, or panics. -/
inductive FMod where
  | ret (closer : Option CloserSpec)
  | err (e : String)
  | panics (p : String)

/-- The modifier loop shared by `handleRoute` (src/unnamed/part_001,
lines 94-110) and the request-time part of `combinedFieldModifier`
(src/fields.go, lines 299-307): run each modifier in order, collecting
the cleanups of those that succeed (in acquisition order) until the
first error or panic, which aborts the remaining modifiers. -/
def fieldsLoop : List FMod → List CloserSpec × (Option String × Option String)
  | [] => ([], (none, none))
  | .ret none :: fs => fieldsLoop fs
  | .ret (some c) :: fs =>
    let res := fieldsLoop fs
    (c :: res.1, res.2)
  | .err e :: _ => ([], (some e, none))
  | .panics p :: _ => ([], (none, some p))

/-- The closers a modifier list acquires, in acquisition order. -/
def acquiredClosers (fields : List FMod) : List CloserSpec :=
  (fieldsLoop fields).1

/-- The deferred-function stack of `handleRoute` unwinding at return
time, innermost (last-acquired) first.  Each per-closer deferred closure
(src/unnamed/part_001, lines 101-108) first calls `recover()` — so a
live panic is converted to `panic: <p>` and stored in `mErr` if `mErr`
is still nil — and then calls `close(mErr)`, whose returned error
becomes `mErr` only if `mErr` is still nil.  The outermost deferred
closure (lines 78-82) only performs the recover step.  Arguments: the
stack (LIFO order), the live panic if one is unwinding, and the current
`mErr`.  Returns the runs performed — closer id paired with the error
value it was handed — and the final `mErr`. -/
def runCloserStack : List CloserSpec → Option String → Option String → List (Nat × Option String) × Option String
  | [], some p, none => ([], some ("panic: " ++ p))
  | [], _, mErr => ([], mErr)
  | c :: rest, pk, mErr =>
    let mErr1 : Option String :=
      match pk, mErr with
      | some p, none => some ("panic: " ++ p)
      | _, m => m
    let mErr2 : Option String :=
      match c.f mErr1, mErr1 with
      | some e, none => some e
      | _, _ => mErr1
    let res := runCloserStack rest none mErr2
    ((c.id, mErr1) :: res.1, res.2)

/-- The pre-cleanup outcome of one request inside `handleRoute`: the
closers acquired, the live panic (if a modifier or the handler panicked),
the `mErr` value at return time, whether the handler ran and whether the
response encoder ran. -/
structure Stage where
  acq : List CloserSpec
  pk : Option String
  mErr : Option String
  handlerInvoked : Bool
  encoderInvoked : Bool

/-- The observable behaviour of the route's typed handler on this
request: a result (encoded afterwards), an error, or a panic. -/
inductive HandlerB where
  | hok
  | herr (e : String)
  | hpanics (p : String)

/-- Everything `handleRoute` (src/unnamed/part_001, lines 74-126) does
before its deferred stack unwinds, given the modifiers' and the
handler's behaviour and the encoder's error (`none` = success):

* a modifier error returns `applying input option: <e>`;
* a modifier panic starts unwinding with the panic live;
* with all fields populated, a `HEAD` request returns immediately,
  before the handler and the encoder;
* a handler error returns `handling request: <e>`; a handler panic
  starts unwinding; an encoder error returns `encoding response: <e>`. -/
def stagePre (fields : List FMod) (method : String) (hB : HandlerB) (encB : Option String) : Stage :=
  let res := fieldsLoop fields
  match res.2.1, res.2.2 with
  | some e, _ => ⟨res.1, none, some ("applying input option: " ++ e), false, false⟩
  | none, some p => ⟨res.1, some p, none, false, false⟩
  | none, none =>
    if method = "HEAD" then ⟨res.1, none, none, false, false⟩
    else
      match hB with
      | .herr e => ⟨res.1, none, some ("handling request: " ++ e), true, false⟩
      | .hpanics p => ⟨res.1, some p, none, true, false⟩
      | .hok =>
        match encB with
        | some e => ⟨res.1, none, some ("encoding response: " ++ e), true, true⟩
        | none => ⟨res.1, none, none, true, true⟩

/-- The observable outcome of one `handleRoute` call: the cleanup runs
(closer id and error handed to it, in execution order), whether the
handler and the encoder ran, the initial `request.pathTail` the field
modifiers shared (`none` when path splitting already failed), and the
terminal `mErr` the caller receives. -/
structure ExecResult where
  closerRuns : List (Nat × Option String)
  handlerInvoked : Bool
  encoderInvoked : Bool
  pathTail0 : Option (List String)
  terminal : Option String
deriving DecidableEq

/-- Go `func handleRoute[...]` (src/unnamed/part_001, lines 74-126)
end to end: split the path (a failure returns that error past the
deferred recover alone), build the shared request cursor, run the
modifier loop, the `HEAD` early return, the handler and the encoder
(per `stagePre`), then unwind the deferred closer stack in reverse
acquisition order. -/
def handleRouteExec (pathRes : Except String (List String)) (fields : List FMod) (method : String) (hB : HandlerB) (encB : Option String) : ExecResult :=
  match pathRes with
  | .error e => ⟨[], false, false, none, some e⟩
  | .ok segs =>
    let st := stagePre fields method hB encB
    let res := runCloserStack st.acq.reverse st.pk st.mErr
    ⟨res.1, st.handlerInvoked, st.encoderInvoked, some segs, res.2⟩

/-- The wrapper installed by `routeHandler` (src/unnamed/part_001, lines
61-66): a non-nil result of `handleRoute` is wrapped once more as
`handling request: <err>` and routed to the router's error handler
(`router.HandleErr`); `none` means the error handler is never called. -/
def dispatchToErrorHandler (r : ExecResult) : Option String :=
  r.terminal.map (fun e => "handling request: " ++ e)

/-- The request-time closure built by `combinedFieldModifier`
(src/fields.go, lines 286-326) for one field composed of sub-modifiers:

* sub-modifiers run in order; the first error `e` (or panic, recovered
  as `panic: <p>` by the deferred block at lines 288-291) stops the
  loop, and the cleanups already acquired for this field run
  immediately, in reverse acquisition order, each handed that error
  (their own errors are discarded because `err` is already non-nil);
* on success nothing runs now and the acquired cleanups are handed back
  (`none` if there are none) for the caller to defer.

Returns the immediate cleanup runs and either the field error or the
delayed cleanup list. -/
def combinedRun (subs : List FMod) : List (Nat × Option String) × Except String (Option (List CloserSpec)) :=
  let res := fieldsLoop subs
  match res.2.1, res.2.2 with
  | some e, _ => (res.1.reverse.map (fun c => (c.id, some e)), .error e)
  | none, some p => (res.1.reverse.map (fun c => (c.id, some ("panic: " ++ p))), .error ("panic: " ++ p))
  | none, none => ([], .ok (if res.1.isEmpty then none else some res.1))

/-- The combined closer returned on the multi-cleanup success path of
`combinedFieldModifier` (src/fields.go, lines 316-324): run the delayed
cleanups in reverse acquisition order, each handed the same terminal
error the combined closer was handed, keeping the first non-nil error
any of them returns (`inner`). Arguments: remaining cleanups in run
order, the terminal error, the `inner` accumulator. -/
def combCloseLoop : List CloserSpec → Option String → Option String → List (Nat × Option String) × Option String
  | [], _, inner => ([], inner)
  | c :: rest, e, inner =>
    let inner2 : Option String :=
      match c.f e, inner with
      | some x, none => some x
      | _, _ => inner
    let res := combCloseLoop rest e inner2
    ((c.id, e) :: res.1, res.2)

/-- The combined closer itself: `func(err error) error` over the delayed
list (in acquisition order, iterated backward). -/
def combClose (delayed : List CloserSpec) (e : Option String) : List (Nat × Option String) × Option String :=
  combCloseLoop delayed.reverse e none

/-- The first non-nil error of a list, as folded by the combined
closer's `inner` accumulator. -/
def firstSome : List (Option String) → Option String
  | [] => none
  | some e :: _ => some e
  | none :: rest => firstSome rest

/-- The static attempt at `n` for head segment `s` is absent or failed:
no static child is keyed by `s`, or one is and its recursive evaluation
reports not-found. -/
def staticFails {H : Type} (n : Node H) (s : String) (rest : List String) : Prop :=
  findChild n.childs s = none ∨
    ∃ c, findChild n.childs s = some c ∧ (Node.Handler c rest).2 = false

/-- A registration's path pattern consists of fixed literals only, i.e.
names a single concrete path. -/
def allFixed : List Step → Bool
  | [] => true
  | .fixed _ :: s => allFixed s
  | .var :: _ => false

/-- The concrete segment list a pattern denotes (variable slots, excluded
by `allFixed` where it matters, are rendered as the empty segment). -/
def stepLits : List Step → List String
  | [] => []
  | .fixed a :: s => a :: stepLits s
  | .var :: s => "" :: stepLits s

/-- A segment list matches a path pattern: same length, equal literals at
fixed slots, anything at variable slots. -/
def matchesSteps : List Step → List String → Bool
  | [], [] => true
  | .fixed a :: s, x :: p => (x == a) && matchesSteps s p
  | .var :: s, _ :: p => matchesSteps s p
  | _, _ => false

/-- The lookup of a concrete path resolves along static children alone
and ends at a node bound to `h` — the configuration a fixed-literal
registration creates and later disjoint registrations preserve. -/
def staticChainWins {H : Type} : Node H → List Step → H → Prop
  | n, [], h => n.handler = some h
  | n, .fixed a :: s, h => ∃ c, findChild n.childs a = some c ∧ staticChainWins c s h
  | _, .var :: _, _ => False

/-- One route registration: the registering option's method, the path
pattern its field options walk, and the handler bound at the end. -/
structure Reg (H : Type) where
  method : RMethod
  steps : List Step
  handler : H

/-- Register one route on the router: walk/extend the method's trie root
and bind the handler (the trie effect of a successful
`Get`/`Post`/`Put`/`Delete` option). -/
def regRoute {H : Type} (r : RouterS H) (g : Reg H) : RouterS H :=
  r.setRoot g.method (addRoute (r.root g.method) g.steps g.handler)

/-- Register a list of routes in order. -/
def regAll {H : Type} (r : RouterS H) (gs : List (Reg H)) : RouterS H :=
  gs.foldl regRoute r

/-- An always-succeeding field option contributing no path steps, used
by concrete witnesses. -/
def wOptA : FOpt := fun _ => ([], none)

/-- A concrete router whose name registry binds field name `A` and whose
type registry binds type tag `T`, used by concrete witnesses. -/
def wRouter : RouterS Nat :=
  { emptyRouter with nameRouteOptions := [("A", wOptA)], typeRouteOptions := [("T", wOptA)] }

/-- The terminal error already determined when the deferred stack starts
unwinding: a set `mErr` wins; otherwise a live panic becomes
`panic: <p>` at the first recover; otherwise none. -/
def effTerm (pk mErr : Option String) : Option String :=
  match mErr, pk with
  | some e, _ => some e
  | none, some p => some ("panic: " ++ p)
  | none, none => none

/-- Every per-method trie root of the router is remainder-free. -/
def noRemRouter {H : Type} (r : RouterS H) : Prop :=
  noRemainder r.get = true ∧ noRemainder r.post = true ∧
    noRemainder r.put = true ∧ noRemainder r.delete = true

/-- The options of the concrete C10 witness: a type-keyed fixed-segment
option and one GET route using it. -/
def c10Opts : List (OptionR Nat) :=
  [OptionR.byType "Fixed" (fun _ => ([Step.fixed "foo"], none)),
   OptionR.handle RMethod.mget [⟨"Foo", "Fixed", true⟩] 5]

/-- The router the C10 witness options build. -/
def c10Router : RouterS Nat :=
  match build c10Opts with
  | Except.ok r => r
  | Except.error _ => emptyRouter

example : Node.Handler (H := Nat) (.mk [("a", .mk [] none false (some 7))] none false none) ["a"] = (some 7, true) := by decide
example : Node.Handler (H := Nat) (.mk [] (some (.mk [] none false none)) true (some 0)) ["x"] = (none, false) := by decide
example : noRemainder (H := Nat) (addRoute emptyNode [.fixed "a", .var] 3) = true := by decide
example : boundHandlers (H := Nat) (addRoute emptyNode [.fixed "a", .var] 3) = [3] := by decide
example : splitSlash "/a/b" = ["", "a", "b"] := by decide
example : splitSlash "" = [""] := by decide
example : splitSlash "/" = ["", ""] := by decide
example : pathUnescape "%2F" = some "/" := by decide
example : pathUnescape "%252F" = some "%2F" := by decide
example : pathUnescape "a%2" = none := by decide

lemma handler_cons_static_fail {H : Type} (n : Node H) (s : String) (rest : List String)
    (hsf : staticFails n s rest) :
    Node.Handler n (s :: rest) =
      (match n.child with
       | some d => Node.Handler d rest
       | none => if n.allowRemainder then (n.handler, true) else (none, false)) := by
  rcases hsf with hnone | ⟨c, hfind, hfail⟩
  · simp only [Node.Handler, hnone]
  · rcases hP : Node.Handler c rest with ⟨h2, b⟩
    rw [hP] at hfail
    simp only at hfail
    subst hfail
    simp only [Node.Handler, hfind, hP]

lemma handler_cons_static_ok {H : Type} (n : Node H) (s : String) (rest : List String)
    (c : Node H) (h : Option H) (hfind : findChild n.childs s = some c)
    (hok : Node.Handler c rest = (h, true)) :
    Node.Handler n (s :: rest) = (h, true) := by
  simp only [Node.Handler, hfind, hok]

/-- Claim C2: backtracking in trie lookup is confined to a single node.
When the recursive lookup into a node's matching static child fails, the
node's result is exactly its local fallback — its own dynamic child's
recursive result, else its own remainder, else not-found — so the
outcome is determined by that same node's `child`, `allowRemainder` and
`handler` alone.  Conversely, when the static subtree's evaluation
succeeds (however much backtracking happened inside it), the node
returns that result unchanged, so an ancestor's dynamic branch is never
re-evaluated because of a failure deeper inside its static subtree. -/
theorem trie_backtracking_single_node (H : Type) :
    (∀ (n : Node H) (s : String) (rest : List String),
      staticFails n s rest →
      Node.Handler n (s :: rest) =
        (match n.child with
         | some d => Node.Handler d rest
         | none => if n.allowRemainder then (n.handler, true) else (none, false)))
  ∧ (∀ (n : Node H) (s : String) (rest : List String) (c : Node H) (h : Option H),
      findChild n.childs s = some c →
      Node.Handler c rest = (h, true) →
      Node.Handler n (s :: rest) = (h, true)) :=
  ⟨fun n s rest hsf => handler_cons_static_fail n s rest hsf,
   fun n s rest c h hfind hok => handler_cons_static_ok n s rest c h hfind hok⟩

/-- Witness for C2 at a concrete trie: the node `n₂` below has a static
child for "a" whose subtree fails on `["x"]`, a dynamic child whose
subtree succeeds, and the lookup indeed falls back to the dynamic child
of the same node. -/
theorem trie_backtracking_single_node_witness :
    staticFails (Node.mk [("a", Node.mk [] none false none)]
        (some (Node.mk [("x", Node.mk [] none false (some 9))] none false none))
        false none : Node Nat) "a" ["x"] ∧
    Node.Handler (Node.mk [("a", Node.mk [] none false none)]
        (some (Node.mk [("x", Node.mk [] none false (some 9))] none false none))
        false none : Node Nat) ["a", "x"] = (some 9, true) :=
  ⟨Or.inr ⟨Node.mk [] none false none, rfl, by decide⟩,
   (trie_backtracking_single_node Nat).1 _ "a" ["x"]
     (Or.inr ⟨Node.mk [] none false none, rfl, by decide⟩)⟩

/-- Claim C1, counterexample: a node with `allowRemainder` set, a bound
handler, no static child for the head segment, and a dynamic child whose
recursive evaluation fails.  The claim says lookup must succeed with the
node's bound handler; the code returns the dynamic child's failure
unconditionally (`return n.child.Handler(path[1:])`) and never reaches
the remainder branch, so lookup reports not-found. -/
theorem remainder_dynamic_fallback_counterexample :
    (Node.mk [] (some (Node.mk [] none false none)) true (some 0) : Node Nat).allowRemainder = true ∧
    (Node.mk [] (some (Node.mk [] none false none)) true (some 0) : Node Nat).handler = some 0 ∧
    staticFails (Node.mk [] (some (Node.mk [] none false none)) true (some 0) : Node Nat) "x" [] ∧
    (Node.Handler (Node.mk [] none false none : Node Nat) []).2 = false ∧
    Node.Handler (Node.mk [] (some (Node.mk [] none false none)) true (some 0) : Node Nat) ["x"] = (none, false) ∧
    Node.Handler (Node.mk [] (some (Node.mk [] none false none)) true (some 0) : Node Nat) ["x"] ≠ (some 0, true) :=
  ⟨rfl, rfl, Or.inl rfl, rfl, rfl, by decide⟩

/-- Claim C1 as amended: for every node with `allowsRemainder` set whose
static attempt is absent or failed, the remainder fallback applies only
when the node has *no* dynamic child, in which case lookup succeeds with
the node's bound handler and swallows all remaining segments without
further inspection; when a dynamic child exists, lookup returns the
dynamic child's recursive result unchanged — success or failure — and
the remainder is never consulted. -/
theorem remainder_swallows_iff_no_dynamic (H : Type) :
    (∀ (n : Node H) (s : String) (rest : List String),
      n.allowRemainder = true → n.child = none →
      staticFails n s rest →
      Node.Handler n (s :: rest) = (n.handler, true))
  ∧ (∀ (n : Node H) (s : String) (rest : List String) (d : Node H),
      n.child = some d →
      staticFails n s rest →
      Node.Handler n (s :: rest) = Node.Handler d rest) := by
  constructor
  · intro n s rest har hchild hsf
    rw [handler_cons_static_fail n s rest hsf, hchild, har]
    simp
  · intro n s rest d hchild hsf
    rw [handler_cons_static_fail n s rest hsf, hchild]

@[simp] lemma Node.childs_mk {H : Type} (cs : List (String × Node H)) (c : Option (Node H)) (ar : Bool) (h : Option H) :
    (Node.mk cs c ar h).childs = cs := rfl

@[simp] lemma Node.child_mk {H : Type} (cs : List (String × Node H)) (c : Option (Node H)) (ar : Bool) (h : Option H) :
    (Node.mk cs c ar h).child = c := rfl

@[simp] lemma Node.allowRemainder_mk {H : Type} (cs : List (String × Node H)) (c : Option (Node H)) (ar : Bool) (h : Option H) :
    (Node.mk cs c ar h).allowRemainder = ar := rfl

@[simp] lemma Node.handler_mk {H : Type} (cs : List (String × Node H)) (c : Option (Node H)) (ar : Bool) (h : Option H) :
    (Node.mk cs c ar h).handler = h := rfl

lemma findChild_insertChild_self {H : Type} (cs : List (String × Node H)) (a : String) (m : Node H) :
    findChild (insertChild cs a m) a = some m := by
  induction cs with
  | nil => simp [insertChild, findChild]
  | cons p rest ih =>
    obtain ⟨b, n⟩ := p
    by_cases hba : b = a
    · subst hba
      simp [insertChild, findChild]
    · simp [insertChild, findChild, hba, ih]

lemma findChild_insertChild_other {H : Type} (cs : List (String × Node H)) (a b : String) (m : Node H)
    (hne : b ≠ a) :
    findChild (insertChild cs b m) a = findChild cs a := by
  induction cs with
  | nil => simp [insertChild, findChild, hne]
  | cons p rest ih =>
    obtain ⟨c, n⟩ := p
    by_cases hcb : c = b
    · subst hcb
      simp [insertChild, findChild, hne]
    · by_cases hca : c = a
      · subst hca
        simp [insertChild, findChild, hcb]
      · simp [insertChild, findChild, hcb, hca, ih]

lemma staticChainWins_addRoute {H : Type} (s : List Step) (n : Node H) (h : H)
    (hf : allFixed s = true) : staticChainWins (addRoute n s h) s h := by
  induction s generalizing n with
  | nil => simp [addRoute, staticChainWins]
  | cons st s' ih =>
    cases st with
    | fixed a =>
      refine ⟨addRoute (match findChild n.childs a with | some c => c | none => emptyNode) s' h, ?_, ?_⟩
      · simp only [addRoute, Node.childs_mk]
        exact findChild_insertChild_self _ _ _
      · exact ih _ (by simpa [allFixed] using hf)
    | var => simp [allFixed] at hf

lemma staticChainWins_handler {H : Type} (s : List Step) (n : Node H) (h : H)
    (hw : staticChainWins n s h) :
    Node.Handler n (stepLits s) = (some h, true) := by
  induction s generalizing n with
  | nil =>
    simp only [staticChainWins] at hw
    simp [stepLits, Node.Handler, hw]
  | cons st s' ih =>
    cases st with
    | fixed a =>
      obtain ⟨c, hfind, hc⟩ := hw
      exact handler_cons_static_ok n a (stepLits s') c (some h) hfind (ih c hc)
    | var => exact absurd hw (by simp [staticChainWins])

lemma addRoute_handler_eq {H : Type} (n : Node H) (t : List Step) (th : H)
    (ht : t ≠ []) : (addRoute n t th).handler = n.handler := by
  cases t with
  | nil => exact absurd rfl ht
  | cons st t' => cases st <;> simp [addRoute]

lemma addRoute_childs_nonfixed {H : Type} (n : Node H) (th : H) :
    (addRoute n [] th).childs = n.childs ∧
      ∀ t', (addRoute n (.var :: t') th).childs = n.childs := by
  constructor
  · simp [addRoute]
  · intro t'
    simp [addRoute]

lemma staticChainWins_preserved {H : Type} (s : List Step) (n : Node H) (h : H)
    (t : List Step) (th : H) (hw : staticChainWins n s h) (hne : t ≠ s) :
    staticChainWins (addRoute n t th) s h := by
  induction s generalizing n t with
  | nil =>
    simp only [staticChainWins] at hw ⊢
    rw [addRoute_handler_eq n t th hne]
    exact hw
  | cons st s' ih =>
    cases st with
    | fixed a =>
      obtain ⟨c, hfind, hc⟩ := hw
      cases t with
      | nil =>
        exact ⟨c, by simpa [addRoute] using hfind, hc⟩
      | cons tst t' =>
        cases tst with
        | var =>
          exact ⟨c, by simpa [addRoute] using hfind, hc⟩
        | fixed b =>
          by_cases hba : b = a
          · subst hba
            refine ⟨addRoute c t' th, ?_, ?_⟩
            · simp only [addRoute, hfind, Node.childs_mk]
              exact findChild_insertChild_self _ _ _
            · exact ih c t' hc (fun hcontra => hne (by rw [hcontra]))
          · refine ⟨c, ?_, hc⟩
            simp only [addRoute, Node.childs_mk]
            rw [findChild_insertChild_other _ _ _ _ hba]
            exact hfind
    | var => exact absurd hw (by simp [staticChainWins])

lemma handler_snd_empty {H : Type} : ∀ path : List String, (Node.Handler (emptyNode (H := H)) path).2 = false := by
  intro path
  cases path <;> rfl

lemma handler_snd_handler_irrel {H : Type} (cs : List (String × Node H)) (child : Option (Node H))
    (ar : Bool) (h1 h2 : Option H) (x : String) (rest : List String) :
    (Node.Handler (.mk cs child ar h1) (x :: rest)).2 = (Node.Handler (.mk cs child ar h2) (x :: rest)).2 := by
  cases hf : findChild cs x with
  | none =>
    rw [handler_cons_static_fail _ x rest (Or.inl (by simpa using hf)),
        handler_cons_static_fail _ x rest (Or.inl (by simpa using hf))]
    cases child <;> cases ar <;> simp
  | some c =>
    rcases hcr : Node.Handler c rest with ⟨hh, b⟩
    cases b
    · rw [handler_cons_static_fail _ x rest (Or.inr ⟨c, by simpa using hf, by rw [hcr]⟩),
          handler_cons_static_fail _ x rest (Or.inr ⟨c, by simpa using hf, by rw [hcr]⟩)]
      cases child <;> cases ar <;> simp
    · rw [handler_cons_static_ok _ x rest c hh (by simpa using hf) hcr,
          handler_cons_static_ok _ x rest c hh (by simpa using hf) hcr]

lemma handler_snd_fb {H : Type} (cs : List (String × Node H)) (child : Option (Node H))
    (ar : Bool) (hd : Option H) (x : String) (rest : List String)
    (hfb : (match child with
            | some d => Node.Handler d rest
            | none => if ar then ((hd : Option H), true) else (none, false)).2 = true) :
    (Node.Handler (.mk cs child ar hd) (x :: rest)).2 = true := by
  cases hf : findChild cs x with
  | none =>
    rw [handler_cons_static_fail _ x rest (Or.inl (by simpa using hf))]
    simpa using hfb
  | some c =>
    rcases hcr : Node.Handler c rest with ⟨hh, b⟩
    cases b
    · rw [handler_cons_static_fail _ x rest (Or.inr ⟨c, by simpa using hf, by rw [hcr]⟩)]
      simpa using hfb
    · rw [handler_cons_static_ok _ x rest c hh (by simpa using hf) hcr]

lemma handler_snd_addRoute {H : Type} (s : List Step) (n : Node H) (h : H) (path : List String)
    (hacc : (Node.Handler (addRoute n s h) path).2 = true) :
    (Node.Handler n path).2 = true ∨ matchesSteps s path = true := by
  induction s generalizing n path with
  | nil =>
    rcases n with ⟨cs, child, ar, hd⟩
    cases path with
    | nil => exact Or.inr rfl
    | cons x rest =>
      left
      have heq := handler_snd_handler_irrel cs child ar (some h) hd x rest
      simp only [addRoute, Node.childs_mk, Node.child_mk, Node.allowRemainder_mk, Node.handler_mk] at hacc
      rw [heq] at hacc
      exact hacc
  | cons st s' ih =>
    cases st with
    | fixed a =>
      rcases n with ⟨cs, child, ar, hd⟩
      cases hfc : findChild cs a with
      | some c0 =>
        have haddr : addRoute (Node.mk cs child ar hd) (Step.fixed a :: s') h =
            Node.mk (insertChild cs a (addRoute c0 s' h)) child ar hd := by
          simp [addRoute, hfc]
        rw [haddr] at hacc
        cases path with
        | nil =>
          left
          simpa [Node.Handler] using hacc
        | cons x rest =>
          by_cases hxa : x = a
          · subst hxa
            have hfind : findChild (insertChild cs x (addRoute c0 s' h)) x = some (addRoute c0 s' h) :=
              findChild_insertChild_self _ _ _
            rcases hMr : Node.Handler (addRoute c0 s' h) rest with ⟨hh, b⟩
            cases b with
            | true =>
              rcases ih c0 rest (by rw [hMr]) with hold | hm
              · left
                rcases hc0 : Node.Handler c0 rest with ⟨h0, b0⟩
                rw [hc0] at hold
                simp only at hold
                subst hold
                rw [handler_cons_static_ok _ x rest c0 h0 (by simpa using hfc) hc0]
              · right
                simp [matchesSteps, hm]
            | false =>
              rw [handler_cons_static_fail _ x rest
                (Or.inr ⟨addRoute c0 s' h, by simpa using hfind, by rw [hMr]⟩)] at hacc
              left
              exact handler_snd_fb cs child ar hd x rest (by simpa using hacc)
          · left
            have hother : findChild (insertChild cs a (addRoute c0 s' h)) x = findChild cs x :=
              findChild_insertChild_other cs x a _ (fun hca => hxa hca.symm)
            cases hfx : findChild cs x with
            | none =>
              rw [handler_cons_static_fail _ x rest (Or.inl (by simpa [hother] using hfx))] at hacc
              exact handler_snd_fb cs child ar hd x rest (by simpa using hacc)
            | some cx =>
              rcases hcx : Node.Handler cx rest with ⟨hx2, bx⟩
              cases bx with
              | true =>
                rw [handler_cons_static_ok _ x rest cx hx2 (by simpa using hfx) hcx]
              | false =>
                rw [handler_cons_static_fail _ x rest
                  (Or.inr ⟨cx, by simpa [hother] using hfx, by rw [hcx]⟩)] at hacc
                exact handler_snd_fb cs child ar hd x rest (by simpa using hacc)
      | none =>
        have haddr : addRoute (Node.mk cs child ar hd) (Step.fixed a :: s') h =
            Node.mk (insertChild cs a (addRoute emptyNode s' h)) child ar hd := by
          simp [addRoute, hfc]
        rw [haddr] at hacc
        cases path with
        | nil =>
          left
          simpa [Node.Handler] using hacc
        | cons x rest =>
          by_cases hxa : x = a
          · subst hxa
            have hfind : findChild (insertChild cs x (addRoute emptyNode s' h)) x = some (addRoute emptyNode s' h) :=
              findChild_insertChild_self _ _ _
            rcases hMr : Node.Handler (addRoute emptyNode s' h) rest with ⟨hh, b⟩
            cases b with
            | true =>
              rcases ih emptyNode rest (by rw [hMr]) with hold | hm
              · exact absurd hold (by simp [handler_snd_empty])
              · right
                simp [matchesSteps, hm]
            | false =>
              rw [handler_cons_static_fail _ x rest
                (Or.inr ⟨addRoute emptyNode s' h, by simpa using hfind, by rw [hMr]⟩)] at hacc
              left
              exact handler_snd_fb cs child ar hd x rest (by simpa using hacc)
          · left
            have hother : findChild (insertChild cs a (addRoute emptyNode s' h)) x = findChild cs x :=
              findChild_insertChild_other cs x a _ (fun hca => hxa hca.symm)
            cases hfx : findChild cs x with
            | none =>
              rw [handler_cons_static_fail _ x rest (Or.inl (by simpa [hother] using hfx))] at hacc
              exact handler_snd_fb cs child ar hd x rest (by simpa using hacc)
            | some cx =>
              rcases hcx : Node.Handler cx rest with ⟨hx2, bx⟩
              cases bx with
              | true =>
                rw [handler_cons_static_ok _ x rest cx hx2 (by simpa using hfx) hcx]
              | false =>
                rw [handler_cons_static_fail _ x rest
                  (Or.inr ⟨cx, by simpa [hother] using hfx, by rw [hcx]⟩)] at hacc
                exact handler_snd_fb cs child ar hd x rest (by simpa using hacc)
    | var =>
      rcases n with ⟨cs, child, ar, hd⟩
      have hD : ∃ d, addRoute (Node.mk cs child ar hd) (Step.var :: s') h =
          Node.mk cs (some (addRoute d s' h)) ar hd ∧ (child = some d ∨ (child = none ∧ d = emptyNode)) := by
        cases hchild : child with
        | some d0 => exact ⟨d0, by simp [addRoute, hchild], Or.inl rfl⟩
        | none => exact ⟨emptyNode, by simp [addRoute, hchild], Or.inr ⟨rfl, rfl⟩⟩
      obtain ⟨d, haddr, hdsrc⟩ := hD
      rw [haddr] at hacc
      cases path with
      | nil =>
        left
        simpa [Node.Handler] using hacc
      | cons x rest =>
        have hdyn : (Node.Handler (addRoute d s' h) rest).2 = true →
            (Node.Handler (Node.mk cs child ar hd) (x :: rest)).2 = true ∨
              matchesSteps (Step.var :: s') (x :: rest) = true := by
          intro hDacc
          rcases ih d rest hDacc with hold | hm
          · rcases hdsrc with hcd | ⟨hcn, hde⟩
            · left
              refine handler_snd_fb cs child ar hd x rest ?_
              rw [hcd]
              simpa using hold
            · rw [hde] at hold
              exact absurd hold (by simp [handler_snd_empty])
          · right
            simpa [matchesSteps] using hm
        cases hfx : findChild cs x with
        | none =>
          rw [handler_cons_static_fail _ x rest (Or.inl (by simpa using hfx))] at hacc
          simp only [Node.child_mk] at hacc
          exact hdyn hacc
        | some cx =>
          rcases hcx : Node.Handler cx rest with ⟨hx2, bx⟩
          cases bx with
          | true =>
            left
            rw [handler_cons_static_ok _ x rest cx hx2 (by simpa using hfx) hcx]
          | false =>
            rw [handler_cons_static_fail _ x rest
              (Or.inr ⟨cx, by simpa using hfx, by rw [hcx]⟩)] at hacc
            simp only [Node.child_mk] at hacc
            exact hdyn hacc

lemma root_setRoot_self {H : Type} (r : RouterS H) (m : RMethod) (n : Node H) :
    (r.setRoot m n).root m = n := by
  cases m <;> rfl

lemma root_setRoot_other {H : Type} (r : RouterS H) (m m' : RMethod) (n : Node H)
    (hne : m' ≠ m) : (r.setRoot m n).root m' = r.root m' := by
  cases m <;> cases m' <;> first
    | rfl
    | exact absurd rfl hne

lemma node_str {H : Type} (r : RouterS H) (m : RMethod) : r.node m.str = r.root m := by
  cases m <;> rfl

lemma emptyRouter_root {H : Type} (m : RMethod) : (emptyRouter (H := H)).root m = emptyNode := by
  cases m <;> rfl

lemma regRoute_root_self {H : Type} (r : RouterS H) (g : Reg H) :
    (regRoute r g).root g.method = addRoute (r.root g.method) g.steps g.handler :=
  root_setRoot_self r g.method _

lemma regRoute_root_other {H : Type} (r : RouterS H) (g : Reg H) (m : RMethod)
    (hne : m ≠ g.method) : (regRoute r g).root m = r.root m :=
  root_setRoot_other r g.method m _ hne

lemma staticChainWins_regAll {H : Type} (gs : List (Reg H)) (r0 : RouterS H) (m : RMethod)
    (s : List Step) (h : H) (hscw : staticChainWins (r0.root m) s h)
    (hdiff : ∀ g ∈ gs, g.method = m → g.steps ≠ s) :
    staticChainWins ((regAll r0 gs).root m) s h := by
  induction gs generalizing r0 with
  | nil => exact hscw
  | cons g rest ih =>
    refine ih (regRoute r0 g) ?_ (fun g2 hmem => hdiff g2 (List.mem_cons_of_mem g hmem))
    by_cases hgm : g.method = m
    · rw [show (regRoute r0 g).root m = addRoute (r0.root m) g.steps g.handler from by
        rw [← hgm]; exact regRoute_root_self r0 g]
      exact staticChainWins_preserved s (r0.root m) h g.steps g.handler hscw
        (hdiff g (List.mem_cons_self g rest) hgm)
    · rw [regRoute_root_other r0 g m (fun hc => hgm hc.symm)]
      exact hscw

lemma accepts_regAll {H : Type} (gs : List (Reg H)) (r0 : RouterS H) (m : RMethod)
    (path : List String) (hacc : (Node.Handler ((regAll r0 gs).root m) path).2 = true) :
    (Node.Handler (r0.root m) path).2 = true ∨
      ∃ g ∈ gs, g.method = m ∧ matchesSteps g.steps path = true := by
  induction gs generalizing r0 with
  | nil => exact Or.inl hacc
  | cons g rest ih =>
    rcases ih (regRoute r0 g) hacc with hstep | ⟨g2, hmem, hgm, hmatch⟩
    · by_cases hgm : g.method = m
      · rw [show (regRoute r0 g).root m = addRoute (r0.root m) g.steps g.handler from by
          rw [← hgm]; exact regRoute_root_self r0 g] at hstep
        rcases handler_snd_addRoute g.steps (r0.root m) g.handler path hstep with hold | hmatch
        · exact Or.inl hold
        · exact Or.inr ⟨g, List.mem_cons_self g rest, hgm, hmatch⟩
      · rw [regRoute_root_other r0 g m (fun hc => hgm hc.symm)] at hstep
        exact Or.inl hstep
    · exact Or.inr ⟨g2, List.mem_cons_of_mem g hmem, hgm, hmatch⟩

/-- Claim C3, counterexample: registering the same method and concrete
path twice installs the later handler at the shared trie node (last
write wins, spec §9), so looking up the first registration's exact
method and path does not return that registration's handler. -/
theorem registered_route_roundtrip_counterexample :
    servePath (regAll (emptyRouter (H := Nat))
        [⟨RMethod.mget, [Step.fixed "a"], 0⟩, ⟨RMethod.mget, [Step.fixed "a"], 1⟩])
      "GET" ["a"] = ServeResult.handled (some 1) ∧
    ServeResult.handled (some (1 : Nat)) ≠ ServeResult.handled (some 0) := by
  constructor
  · decide
  · decide

/-- Claim C3 as amended: for a route registered through the public
options under a method and a concrete (all-fixed) path, looking up that
exact method and path returns the registered handler, provided no later
registration binds the same method and the identical segment pattern
(the code's last-write-wins override otherwise replaces the handler);
and for a router built from any registration list, a request path
matching none of that method's registered patterns — no static, dynamic
or remainder branch — yields the not-found (404) response. -/
theorem registered_route_roundtrip (H : Type) :
    (∀ (r0 : RouterS H) (g : Reg H) (later : List (Reg H)),
      allFixed g.steps = true →
      (∀ g2 ∈ later, g2.method = g.method → g2.steps ≠ g.steps) →
      servePath (regAll (regRoute r0 g) later) g.method.str (stepLits g.steps) =
        ServeResult.handled (some g.handler))
  ∧ (∀ (gs : List (Reg H)) (m : RMethod) (path : List String),
      (∀ g ∈ gs, g.method = m → matchesSteps g.steps path = false) →
      servePath (regAll emptyRouter gs) m.str path = ServeResult.notFound) := by
  constructor
  · intro r0 g later hfix hdiff
    have hscw0 : staticChainWins ((regRoute r0 g).root g.method) g.steps g.handler := by
      rw [regRoute_root_self r0 g]
      exact staticChainWins_addRoute g.steps _ g.handler hfix
    have hscw := staticChainWins_regAll later (regRoute r0 g) g.method g.steps g.handler hscw0 hdiff
    have hH := staticChainWins_handler g.steps _ g.handler hscw
    simp [servePath, node_str, hH]
  · intro gs m path hmiss
    rcases hres : Node.Handler ((regAll emptyRouter gs).root m) path with ⟨hh, b⟩
    cases b with
    | true =>
      rcases accepts_regAll gs emptyRouter m path (by rw [hres]) with hemp | ⟨g, hmem, hgm, hmatch⟩
      · rw [emptyRouter_root] at hemp
        exact absurd hemp (by simp [handler_snd_empty])
      · exact absurd hmatch (by simp [hmiss g hmem hgm])
    | false =>
      simp [servePath, node_str, hres]

/-- Witness for the amended C3 at a concrete router: a GET route on the
concrete path `/a` (handler 5) survives a later dynamic GET registration,
and a GET request for `/b` against a single-route router misses. -/
theorem registered_route_roundtrip_witness :
    (allFixed [Step.fixed "a"] = true ∧
      (∀ g2 ∈ ([⟨RMethod.mget, [Step.var], 9⟩] : List (Reg Nat)),
        g2.method = RMethod.mget → g2.steps ≠ [Step.fixed "a"]) ∧
      servePath (regAll (regRoute emptyRouter ⟨RMethod.mget, [Step.fixed "a"], 5⟩)
          [⟨RMethod.mget, [Step.var], 9⟩]) "GET" ["a"] = ServeResult.handled (some 5))
  ∧ ((∀ g ∈ ([⟨RMethod.mget, [Step.fixed "a"], 5⟩] : List (Reg Nat)),
        g.method = RMethod.mget → matchesSteps g.steps ["b"] = false) ∧
      servePath (regAll emptyRouter [⟨RMethod.mget, [Step.fixed "a"], 5⟩]) "GET" ["b"] =
        ServeResult.notFound) :=
  ⟨⟨by decide, by decide,
    (registered_route_roundtrip Nat).1 emptyRouter ⟨RMethod.mget, [Step.fixed "a"], 5⟩
      [⟨RMethod.mget, [Step.var], 9⟩] (by decide) (by decide)⟩,
   ⟨by decide,
    (registered_route_roundtrip Nat).2 [⟨RMethod.mget, [Step.fixed "a"], 5⟩] RMethod.mget ["b"]
      (by decide)⟩⟩

/-- Claim C4: path normalization.  The segment list handed to trie
matching and to the field modifiers' shared cursor is the path split on
`/` with the leading empty segment discarded; when a raw encoding is
present (Go leaves `RawPath` empty whenever it coincides with the
decoded path), every raw segment is percent-decoded exactly once —
witnessed by `%2F ↦ /` while the doubly-encoded `%252F ↦ %2F` is *not*
decoded twice — and a decode failure is answered with a 400-class error
before any lookup, whatever the router's tries contain; on success the
decoded segments are exactly what the lookup and the request cursor
receive. -/
theorem path_normalization (H : Type) :
    (∀ u : URL, u.rawPath = "" → splitPath u = Except.ok ((splitSlash u.path).drop 1))
  ∧ (∀ u : URL, u.rawPath ≠ "" → splitPath u = decodeSegs ((splitSlash u.rawPath).drop 1))
  ∧ (pathUnescape "%2F" = some "/" ∧ pathUnescape "%252F" = some "%2F")
  ∧ (∀ (r : RouterS H) (method : String) (u : URL) (e : String),
      splitPath u = Except.error e → serveURL r method u = ServeResult.badRequest e)
  ∧ (∀ (r : RouterS H) (method : String) (u : URL) (segs : List String),
      splitPath u = Except.ok segs → serveURL r method u = servePath r method segs)
  ∧ (∀ (u : URL) (segs : List String) (fields : List FMod) (method : String)
       (hB : HandlerB) (encB : Option String),
      splitPath u = Except.ok segs →
      (handleRouteExec (splitPath u) fields method hB encB).pathTail0 = some segs) := by
  refine ⟨?_, ?_, ⟨by decide, by decide⟩, ?_, ?_, ?_⟩
  · intro u hraw
    simp [splitPath, hraw]
  · intro u hraw
    simp [splitPath, hraw]
  · intro r method u e hsp
    simp [serveURL, hsp]
  · intro r method u segs hsp
    simp [serveURL, hsp]
  · intro u segs fields method hB encB hsp
    rw [hsp]
    rfl

/-- Witness for C4: a URL with no raw path splits plainly; a URL with a
truncated escape in its raw path is answered 400 with the decode error,
independent of the (empty) router. -/
theorem path_normalization_witness :
    ((URL.mk "/a/b" "").rawPath = "" ∧
      splitPath (URL.mk "/a/b" "") = Except.ok ((splitSlash "/a/b").drop 1))
  ∧ (splitPath (URL.mk "/x" "/a%2") = Except.error "url.PathUnescape: invalid URL escape in a%2" ∧
      serveURL (emptyRouter (H := Nat)) "GET" (URL.mk "/x" "/a%2") =
        ServeResult.badRequest "url.PathUnescape: invalid URL escape in a%2") :=
  ⟨⟨rfl, (path_normalization Nat).1 (URL.mk "/a/b" "") rfl⟩,
   ⟨rfl,
    (path_normalization Nat).2.2.2.1 emptyRouter "GET" (URL.mk "/x" "/a%2")
      "url.PathUnescape: invalid URL escape in a%2" rfl⟩⟩

lemma boundHandlers_mk_some {H : Type} (cs : List (String × Node H)) (ar : Bool)
    (hd : Option H) (d : Node H) :
    boundHandlers (Node.mk cs (some d) ar hd) =
      hd.toList ++ boundHandlers.boundHandlersList cs ++ boundHandlers d := rfl

lemma boundHandlers_mk_none {H : Type} (cs : List (String × Node H)) (ar : Bool)
    (hd : Option H) :
    boundHandlers (Node.mk cs none ar hd) =
      hd.toList ++ boundHandlers.boundHandlersList cs ++ [] := rfl

lemma boundHandlers_mk {H : Type} (cs : List (String × Node H)) (child : Option (Node H))
    (ar : Bool) (hd : Option H) :
    boundHandlers (Node.mk cs child ar hd) =
      hd.toList ++ boundHandlers.boundHandlersList cs ++
        (match child with
         | some d => boundHandlers d
         | none => []) := by
  cases child <;> rfl

lemma bhl_nil {H : Type} : boundHandlers.boundHandlersList ([] : List (String × Node H)) = [] := rfl

lemma bhl_cons {H : Type} (b : String) (n : Node H) (rest : List (String × Node H)) :
    boundHandlers.boundHandlersList ((b, n) :: rest) =
      boundHandlers n ++ boundHandlers.boundHandlersList rest := rfl

lemma boundHandlersList_insert_replace {H : Type} (cs : List (String × Node H)) (a : String)
    (c m : Node H) (hfind : findChild cs a = some c) (hbh : boundHandlers m = boundHandlers c) :
    boundHandlers.boundHandlersList (insertChild cs a m) = boundHandlers.boundHandlersList cs := by
  induction cs with
  | nil => simp [findChild] at hfind
  | cons p rest ih =>
    obtain ⟨b, n0⟩ := p
    by_cases hba : b = a
    · subst hba
      have hn0 : n0 = c := by simpa [findChild] using hfind
      rw [show insertChild ((b, n0) :: rest) b m = (b, m) :: rest from by simp [insertChild],
          bhl_cons, bhl_cons, hn0, hbh]
    · have hfind2 : findChild rest a = some c := by simpa [findChild, hba] using hfind
      rw [show insertChild ((b, n0) :: rest) a m = (b, n0) :: insertChild rest a m from by
            simp [insertChild, hba],
          bhl_cons, bhl_cons, ih hfind2]

lemma boundHandlersList_insert_new {H : Type} (cs : List (String × Node H)) (a : String)
    (m : Node H) (hfind : findChild cs a = none) (hbh : boundHandlers m = []) :
    boundHandlers.boundHandlersList (insertChild cs a m) = boundHandlers.boundHandlersList cs := by
  induction cs with
  | nil =>
    rw [show insertChild ([] : List (String × Node H)) a m = [(a, m)] from rfl,
        bhl_cons, bhl_nil, hbh]
    rfl
  | cons p rest ih =>
    obtain ⟨b, n0⟩ := p
    by_cases hba : b = a
    · subst hba
      simp [findChild] at hfind
    · have hfind2 : findChild rest a = none := by simpa [findChild, hba] using hfind
      rw [show insertChild ((b, n0) :: rest) a m = (b, n0) :: insertChild rest a m from by
            simp [insertChild, hba],
          bhl_cons, bhl_cons, ih hfind2]

lemma boundHandlers_ensurePath {H : Type} (p : List Step) (n : Node H) :
    boundHandlers (ensurePath n p) = boundHandlers n := by
  induction p generalizing n with
  | nil => rfl
  | cons st s ih =>
    rcases n with ⟨cs, child, ar, hd⟩
    cases st with
    | fixed a =>
      cases hfc : findChild cs a with
      | some c =>
        have h1 : ensurePath (Node.mk cs child ar hd) (Step.fixed a :: s) =
            Node.mk (insertChild cs a (ensurePath c s)) child ar hd := by
          simp [ensurePath, hfc]
        rw [h1, boundHandlers_mk, boundHandlers_mk]
        rw [boundHandlersList_insert_replace cs a c (ensurePath c s) hfc (ih c)]
      | none =>
        have h1 : ensurePath (Node.mk cs child ar hd) (Step.fixed a :: s) =
            Node.mk (insertChild cs a (ensurePath emptyNode s)) child ar hd := by
          simp [ensurePath, hfc]
        rw [h1, boundHandlers_mk, boundHandlers_mk]
        rw [boundHandlersList_insert_new cs a (ensurePath emptyNode s) hfc (by rw [ih emptyNode]; rfl)]
    | var =>
      cases hchild : child with
      | some d =>
        have h1 : ensurePath (Node.mk cs (some d) ar hd) (Step.var :: s) =
            Node.mk cs (some (ensurePath d s)) ar hd := rfl
        rw [h1, boundHandlers_mk_some, boundHandlers_mk_some, ih d]
      | none =>
        have h1 : ensurePath (Node.mk cs none ar hd) (Step.var :: s) =
            Node.mk cs (some (ensurePath emptyNode s)) ar hd := rfl
        rw [h1, boundHandlers_mk_some, boundHandlers_mk_none, ih emptyNode]
        rfl

lemma compileLoop_boundHandlers {H : Type} (r : RouterS H) (fs : List FieldSpec) (root : Node H)
    (cur : List Step) : boundHandlers (compileLoop r fs root cur).1 = boundHandlers root := by
  induction fs generalizing root cur with
  | nil => rfl
  | cons f rest ih =>
    simp only [compileLoop]
    by_cases hexp : f.exported = false
    · simp [hexp]
    · simp only [if_neg hexp]
      cases hopt : routeOption r f with
      | none => rfl
      | some opt =>
        cases herr : (opt f).2 with
        | some e =>
          simp only [herr]
          exact boundHandlers_ensurePath _ root
        | none =>
          simp only [herr]
          rw [ih (ensurePath root (cur ++ (opt f).1)) (cur ++ (opt f).1)]
          exact boundHandlers_ensurePath _ root

lemma compileLoop_append_ok {H : Type} (r : RouterS H) (pre : List FieldSpec) (root : Node H)
    (cur : List Step) (root1 : Node H) (cur1 : List Step)
    (hok : compileLoop r pre root cur = (root1, cur1, none)) (rest : List FieldSpec) :
    compileLoop r (pre ++ rest) root cur = compileLoop r rest root1 cur1 := by
  induction pre generalizing root cur with
  | nil =>
    simp only [compileLoop] at hok
    obtain ⟨h1, h2⟩ : root = root1 ∧ cur = cur1 := by
      have h := hok
      rw [Prod.ext_iff, Prod.ext_iff] at h
      exact ⟨h.1, h.2.1⟩
    subst h1
    subst h2
    rfl
  | cons f pre' ih =>
    rw [List.cons_append]
    simp only [compileLoop] at hok ⊢
    by_cases hexp : f.exported = false
    · rw [if_pos hexp] at hok
      exact absurd hok (by simp [Prod.ext_iff])
    · rw [if_neg hexp] at hok ⊢
      cases hopt : routeOption r f with
      | none =>
        simp only [hopt] at hok
        exact absurd hok (by simp [Prod.ext_iff])
      | some opt =>
        simp only [hopt] at hok ⊢
        cases herr : (opt f).2 with
        | some e =>
          simp only [herr] at hok
          exact absurd hok (by simp [Prod.ext_iff])
        | none =>
          simp only [herr] at hok ⊢
          exact ih _ _ hok

/-- Claim C5: field-option resolution order.  The name-keyed registry is
consulted first and its entry wins outright; only when it has no entry
for the field's name is the type-keyed registry consulted; and when
neither registry has an entry for an (exported) field, the whole route
registration fails with the error `no option for field <name> type
<type>` while the set of handlers bound anywhere in the method's trie is
left unchanged — no handler is installed for the route. -/
theorem field_option_resolution (H : Type) :
    (∀ (r : RouterS H) (f : FieldSpec) (o : FOpt),
      lookupAssoc r.nameRouteOptions f.name = some o → routeOption r f = some o)
  ∧ (∀ (r : RouterS H) (f : FieldSpec),
      lookupAssoc r.nameRouteOptions f.name = none →
      routeOption r f = lookupAssoc r.typeRouteOptions f.typ)
  ∧ (∀ (r : RouterS H) (root : Node H) (pre : List FieldSpec) (f : FieldSpec)
       (post : List FieldSpec) (h : H) (root1 : Node H) (cur1 : List Step),
      compileLoop r pre root [] = (root1, cur1, none) →
      f.exported = true →
      routeOption r f = none →
      (routeHandler r root (pre ++ f :: post) h).2 =
          some ("no option for field " ++ f.name ++ " type " ++ f.typ) ∧
        boundHandlers (routeHandler r root (pre ++ f :: post) h).1 = boundHandlers root) := by
  refine ⟨?_, ?_, ?_⟩
  · intro r f o hname
    simp [routeOption, hname]
  · intro r f hname
    simp [routeOption, hname]
  · intro r root pre f post h root1 cur1 hpre hexp hnone
    have hloop : compileLoop r (pre ++ f :: post) root [] =
        (root1, cur1, some ("no option for field " ++ f.name ++ " type " ++ f.typ)) := by
      rw [compileLoop_append_ok r pre root [] root1 cur1 hpre (f :: post)]
      simp [compileLoop, hexp, hnone]
    have hbh : boundHandlers root1 = boundHandlers root := by
      have := compileLoop_boundHandlers r (pre ++ f :: post) root []
      rw [hloop] at this
      exact this
    constructor
    · simp [routeHandler, hloop]
    · simp [routeHandler, hloop, hbh]

/-- Witness for C5: on `wRouter`, the name entry for `A` wins; a field
`B` of unknown type `U` resolves to no option and its route registration
fails with the documented error, installing no handler. -/
theorem field_option_resolution_witness :
    (lookupAssoc wRouter.nameRouteOptions "A" = some wOptA ∧
      routeOption wRouter ⟨"A", "T", true⟩ = some wOptA)
  ∧ (compileLoop wRouter [] emptyNode [] = (emptyNode, [], none) ∧
      (⟨"B", "U", true⟩ : FieldSpec).exported = true ∧
      routeOption wRouter ⟨"B", "U", true⟩ = none ∧
      (routeHandler wRouter emptyNode [⟨"B", "U", true⟩] 7).2 =
          some ("no option for field " ++ "B" ++ " type " ++ "U") ∧
      boundHandlers (routeHandler wRouter emptyNode [⟨"B", "U", true⟩] 7).1 =
        boundHandlers emptyNode) :=
  ⟨⟨rfl, (field_option_resolution Nat).1 wRouter ⟨"A", "T", true⟩ wOptA rfl⟩,
   ⟨rfl, rfl, rfl,
    ((field_option_resolution Nat).2.2 wRouter emptyNode [] ⟨"B", "U", true⟩ [] 7 emptyNode []
      rfl rfl rfl).1,
    ((field_option_resolution Nat).2.2 wRouter emptyNode [] ⟨"B", "U", true⟩ [] 7 emptyNode []
      rfl rfl rfl).2⟩⟩

/-- Claim C6: unexported-field precondition.  Reaching a non-exported
field aborts the route registration with `field <name> is not exported`
— before any option resolution for that field, for every content of the
two registries alike — and leaves the trie's bound-handler set unchanged;
and a registration whose `routeHandler` fails makes the whole `New`
construction return that error, so no handler function is produced. -/
theorem unexported_field_fails (H : Type) :
    (∀ (r : RouterS H) (root : Node H) (pre : List FieldSpec) (f : FieldSpec)
       (post : List FieldSpec) (h : H) (root1 : Node H) (cur1 : List Step),
      compileLoop r pre root [] = (root1, cur1, none) →
      f.exported = false →
      (routeHandler r root (pre ++ f :: post) h).2 =
          some ("field " ++ f.name ++ " is not exported") ∧
        boundHandlers (routeHandler r root (pre ++ f :: post) h).1 = boundHandlers root)
  ∧ (∀ (r : RouterS H) (m : RMethod) (fields : List FieldSpec) (h : H) (e : String)
       (rest : List (OptionR H)),
      (routeHandler r (r.root m) fields h).2 = some e →
      buildFrom r (OptionR.handle m fields h :: rest) = Except.error e) := by
  constructor
  · intro r root pre f post h root1 cur1 hpre hexp
    have hloop : compileLoop r (pre ++ f :: post) root [] =
        (root1, cur1, some ("field " ++ f.name ++ " is not exported")) := by
      rw [compileLoop_append_ok r pre root [] root1 cur1 hpre (f :: post)]
      simp [compileLoop, hexp]
    have hbh : boundHandlers root1 = boundHandlers root := by
      have := compileLoop_boundHandlers r (pre ++ f :: post) root []
      rw [hloop] at this
      exact this
    constructor
    · simp [routeHandler, hloop]
    · simp [routeHandler, hloop, hbh]
  · intro r m fields h e rest herr
    rcases hrh : routeHandler r (r.root m) fields h with ⟨rt, err⟩
    rw [hrh] at herr
    simp only at herr
    subst herr
    simp [buildFrom, applyOption, hrh]

/-- Witness for C6: a route whose single field `priv` is unexported
fails registration with the documented error, leaves the handler set
unchanged, and aborts the whole construction. -/
theorem unexported_field_fails_witness :
    (compileLoop (emptyRouter (H := Nat)) [] emptyNode [] = (emptyNode, [], none) ∧
      (⟨"priv", "T", false⟩ : FieldSpec).exported = false ∧
      (routeHandler (emptyRouter (H := Nat)) emptyNode [⟨"priv", "T", false⟩] 3).2 =
          some ("field " ++ "priv" ++ " is not exported") ∧
      boundHandlers (routeHandler (emptyRouter (H := Nat)) emptyNode [⟨"priv", "T", false⟩] 3).1 =
        boundHandlers (emptyNode (H := Nat)))
  ∧ ((routeHandler (emptyRouter (H := Nat)) ((emptyRouter (H := Nat)).root RMethod.mget)
        [⟨"priv", "T", false⟩] 3).2 = some "field priv is not exported" ∧
      buildFrom (emptyRouter (H := Nat))
          [OptionR.handle RMethod.mget [⟨"priv", "T", false⟩] 3] =
        Except.error "field priv is not exported") :=
  ⟨⟨rfl, rfl,
    ((unexported_field_fails Nat).1 emptyRouter emptyNode [] ⟨"priv", "T", false⟩ [] 3 emptyNode []
      rfl rfl).1,
    ((unexported_field_fails Nat).1 emptyRouter emptyNode [] ⟨"priv", "T", false⟩ [] 3 emptyNode []
      rfl rfl).2⟩,
   ⟨rfl,
    (unexported_field_fails Nat).2 emptyRouter RMethod.mget [⟨"priv", "T", false⟩] 3
      "field priv is not exported" [] rfl⟩⟩

lemma runCloserStack_ids (l : List CloserSpec) (pk mErr : Option String) :
    (runCloserStack l pk mErr).1.map Prod.fst = l.map CloserSpec.id := by
  induction l generalizing pk mErr with
  | nil => cases pk <;> cases mErr <;> rfl
  | cons c rest ih =>
    simp only [runCloserStack, List.map_cons, List.map]
    rw [ih]

lemma runCloserStack_mErr_some (l : List CloserSpec) (pk : Option String) (e : String) :
    runCloserStack l pk (some e) = (l.map (fun c => (c.id, some e)), some e) := by
  induction l generalizing pk with
  | nil => cases pk <;> rfl
  | cons c rest ih =>
    simp only [runCloserStack, List.map_cons]
    cases hcf : c.f (some e) <;> simp [hcf, ih none]

lemma runCloserStack_panic (l : List CloserSpec) (p : String) :
    runCloserStack l (some p) none =
      (l.map (fun c => (c.id, some ("panic: " ++ p))), some ("panic: " ++ p)) := by
  cases l with
  | nil => rfl
  | cons c rest =>
    simp only [runCloserStack, List.map_cons]
    cases hcf : c.f (some ("panic: " ++ p)) <;>
      simp [hcf, runCloserStack_mErr_some rest none ("panic: " ++ p)]

lemma runCloserStack_eff_some (l : List CloserSpec) (pk mErr : Option String) (e : String)
    (heff : effTerm pk mErr = some e) :
    runCloserStack l pk mErr = (l.map (fun c => (c.id, some e)), some e) := by
  cases mErr with
  | some e2 =>
    have he : e2 = e := by simpa [effTerm] using heff
    subst he
    exact runCloserStack_mErr_some l pk e2
  | none =>
    cases pk with
    | none => simp [effTerm] at heff
    | some p =>
      have he : ("panic: " ++ p) = e := by simpa [effTerm] using heff
      subst he
      exact runCloserStack_panic l p

lemma runCloserStack_none_closers (l1 l2 : List CloserSpec)
    (hnone : ∀ c ∈ l1, ∀ x, c.f x = none) :
    runCloserStack (l1 ++ l2) none none =
      ((l1.map (fun c => (c.id, (none : Option String)))) ++ (runCloserStack l2 none none).1,
        (runCloserStack l2 none none).2) := by
  induction l1 with
  | nil => simp
  | cons c rest ih =>
    have hmain := ih (fun d hd x => hnone d (List.mem_cons_of_mem c hd) x)
    rw [List.cons_append]
    simp only [runCloserStack, List.map_cons, List.append_eq,
               hnone c (List.mem_cons_self c rest) none]
    rw [hmain]
    simp

lemma fieldsLoop_append_ret (S l : List FMod) (hS : ∀ m ∈ S, ∃ cl, m = FMod.ret cl) :
    fieldsLoop (S ++ l) = ((fieldsLoop S).1 ++ (fieldsLoop l).1, (fieldsLoop l).2) := by
  induction S with
  | nil => simp [fieldsLoop]
  | cons m rest ih =>
    obtain ⟨cl, hm⟩ := hS m (List.mem_cons_self m rest)
    subst hm
    have hrest := ih (fun m2 hm2 => hS m2 (List.mem_cons_of_mem _ hm2))
    cases cl with
    | none => simpa [fieldsLoop] using hrest
    | some c => simp [fieldsLoop, hrest]

lemma fieldsLoop_all_ret (S : List FMod) (hS : ∀ m ∈ S, ∃ cl, m = FMod.ret cl) :
    fieldsLoop S = ((fieldsLoop S).1, (none, none)) := by
  have h := fieldsLoop_append_ret S [] hS
  simpa [fieldsLoop] using h

lemma stagePre_acq (fields : List FMod) (method : String) (hB : HandlerB) (encB : Option String) :
    (stagePre fields method hB encB).acq = (fieldsLoop fields).1 := by
  rcases hres : fieldsLoop fields with ⟨cs, o1, o2⟩
  simp only [stagePre, hres]
  cases o1 <;> cases o2 <;> try rfl
  by_cases hm : method = "HEAD"
  · simp [hm]
  · cases hB <;> cases encB <;> simp [hm]

lemma handleRouteExec_runs (segs : List String) (fields : List FMod) (method : String)
    (hB : HandlerB) (encB : Option String) :
    (handleRouteExec (Except.ok segs) fields method hB encB).closerRuns =
      (runCloserStack (acquiredClosers fields).reverse
        (stagePre fields method hB encB).pk (stagePre fields method hB encB).mErr).1 ∧
    (handleRouteExec (Except.ok segs) fields method hB encB).terminal =
      (runCloserStack (acquiredClosers fields).reverse
        (stagePre fields method hB encB).pk (stagePre fields method hB encB).mErr).2 := by
  constructor
  · simp only [handleRouteExec, stagePre_acq, acquiredClosers]
  · simp only [handleRouteExec, stagePre_acq, acquiredClosers]

lemma handleRouteExec_runs_ids (segs : List String) (fields : List FMod) (method : String)
    (hB : HandlerB) (encB : Option String) :
    (handleRouteExec (Except.ok segs) fields method hB encB).closerRuns.map Prod.fst =
      ((acquiredClosers fields).map CloserSpec.id).reverse := by
  obtain ⟨hr, _⟩ := handleRouteExec_runs segs fields method hB encB
  rw [hr, runCloserStack_ids, List.map_reverse]

lemma combCloseLoop_runs (l : List CloserSpec) (e inner : Option String) :
    (combCloseLoop l e inner).1 = l.map (fun c => (c.id, e)) := by
  induction l generalizing inner with
  | nil => rfl
  | cons c rest ih => simp only [combCloseLoop, List.map_cons]; rw [ih]

lemma combCloseLoop_err (l : List CloserSpec) (e inner : Option String) :
    (combCloseLoop l e inner).2 =
      (match inner with
       | some x => some x
       | none => firstSome (l.map (fun c => c.f e))) := by
  induction l generalizing inner with
  | nil => cases inner <;> rfl
  | cons c rest ih =>
    cases inner with
    | some x =>
      simp only [combCloseLoop]
      cases hcf : c.f e <;> simp [hcf, ih]
    | none =>
      simp only [combCloseLoop, List.map_cons]
      cases hcf : c.f e <;> simp [hcf, ih, firstSome]

lemma stagePre_head_eq (fields : List FMod) (hB hB2 : HandlerB) (encB encB2 : Option String) :
    stagePre fields "HEAD" hB encB = stagePre fields "HEAD" hB2 encB2 := by
  rcases hres : fieldsLoop fields with ⟨cs, o1, o2⟩
  cases o1 <;> cases o2 <;> simp [stagePre, hres]

lemma stagePre_head_flags (fields : List FMod) (hB : HandlerB) (encB : Option String) :
    (stagePre fields "HEAD" hB encB).handlerInvoked = false ∧
      (stagePre fields "HEAD" hB encB).encoderInvoked = false := by
  rcases hres : fieldsLoop fields with ⟨cs, o1, o2⟩
  cases o1 <;> cases o2 <;> simp [stagePre, hres]

/-- Claim C7: cleanup discipline.  (i) Every cleanup acquired during a
request runs exactly once, in strict reverse order of acquisition.
(ii) When a terminal error is already set when the deferred stack
unwinds (a modifier/handler/encoder error or a recovered panic), every
cleanup receives exactly that error, and no cleanup error replaces it.
(iii) When no terminal error is set, a cleanup's returned error becomes
the terminal error; with the innermost failing cleanup `c` (everything
acquired after it returning nil), `c`'s error wins, the cleanups
acquired before `c` still run — each handed `c`'s error, which they can
no longer override — and `c`'s error is the request's terminal error.
(iv) Within one field's combined closer, the delayed cleanups run in
reverse acquisition order, each handed the same terminal error, and the
first non-nil error in run order is returned.  (v) A sub-modifier error
inside one field runs the cleanups already acquired for that field, in
reverse order, each handed that error, and reports that error for the
field. -/
theorem cleanup_discipline :
    (∀ (segs : List String) (fields : List FMod) (method : String) (hB : HandlerB)
       (encB : Option String),
      (handleRouteExec (Except.ok segs) fields method hB encB).closerRuns.map Prod.fst =
        ((acquiredClosers fields).map CloserSpec.id).reverse)
  ∧ (∀ (segs : List String) (fields : List FMod) (method : String) (hB : HandlerB)
       (encB : Option String) (e : String),
      effTerm (stagePre fields method hB encB).pk (stagePre fields method hB encB).mErr = some e →
      (handleRouteExec (Except.ok segs) fields method hB encB).closerRuns =
          (acquiredClosers fields).reverse.map (fun c => (c.id, some e)) ∧
        (handleRouteExec (Except.ok segs) fields method hB encB).terminal = some e)
  ∧ (∀ (segs : List String) (fields : List FMod) (method : String) (hB : HandlerB)
       (encB : Option String) (A B : List CloserSpec) (c : CloserSpec) (e : String),
      acquiredClosers fields = A ++ c :: B →
      (∀ b ∈ B, ∀ x, b.f x = none) →
      c.f none = some e →
      (stagePre fields method hB encB).pk = none →
      (stagePre fields method hB encB).mErr = none →
      (handleRouteExec (Except.ok segs) fields method hB encB).terminal = some e ∧
        (handleRouteExec (Except.ok segs) fields method hB encB).closerRuns =
          B.reverse.map (fun b => (b.id, (none : Option String))) ++
            (c.id, (none : Option String)) :: A.reverse.map (fun a => (a.id, some e)))
  ∧ (∀ (delayed : List CloserSpec) (e : Option String),
      (combClose delayed e).1 = delayed.reverse.map (fun c => (c.id, e)) ∧
        (combClose delayed e).2 = firstSome (delayed.reverse.map (fun c => c.f e)))
  ∧ (∀ (S : List FMod) (e : String) (rest : List FMod),
      (∀ m ∈ S, ∃ cl, m = FMod.ret cl) →
      (combinedRun (S ++ FMod.err e :: rest)).1 =
          (acquiredClosers S).reverse.map (fun c => (c.id, some e)) ∧
        (combinedRun (S ++ FMod.err e :: rest)).2 = Except.error e) := by
  refine ⟨?_, ?_, ?_, ?_, ?_⟩
  · intro segs fields method hB encB
    exact handleRouteExec_runs_ids segs fields method hB encB
  · intro segs fields method hB encB e heff
    obtain ⟨hr, ht⟩ := handleRouteExec_runs segs fields method hB encB
    rw [runCloserStack_eff_some _ _ _ e heff] at hr ht
    exact ⟨by rw [hr, List.map_reverse], ht⟩
  · intro segs fields method hB encB A B c e hacq hBnone hcf hpk hmErr
    obtain ⟨hr, ht⟩ := handleRouteExec_runs segs fields method hB encB
    rw [hpk, hmErr, hacq] at hr ht
    have hrev : (A ++ c :: B).reverse = B.reverse ++ (c :: A.reverse) := by
      simp
    rw [hrev] at hr ht
    have hsplit := runCloserStack_none_closers B.reverse (c :: A.reverse)
      (fun b hb x => hBnone b (List.mem_reverse.mp hb) x)
    have hc : runCloserStack (c :: A.reverse) none none =
        ((c.id, (none : Option String)) :: A.reverse.map (fun a => (a.id, some e)), some e) := by
      simp [runCloserStack, hcf, runCloserStack_mErr_some]
    rw [hsplit, hc] at hr ht
    exact ⟨ht, hr⟩
  · intro delayed e
    exact ⟨combCloseLoop_runs delayed.reverse e none, combCloseLoop_err delayed.reverse e none⟩
  · intro S e rest hS
    have hfl := fieldsLoop_append_ret S (FMod.err e :: rest) hS
    have htail : fieldsLoop (FMod.err e :: rest) = ([], (some e, none)) := rfl
    rw [htail] at hfl
    constructor
    · simp [combinedRun, hfl, acquiredClosers]
    · simp [combinedRun, hfl]

/-- Witness for C7: two cleanups are acquired; the later-acquired (inner)
cleanup fails with `boom` when handed a nil terminal error; the earlier
cleanup still runs, handed `boom`, and `boom` is the request's terminal
error. -/
theorem cleanup_discipline_witness :
    (acquiredClosers [FMod.ret (some ⟨1, fun _ => none⟩), FMod.ret (some ⟨2, fun _ => some "boom"⟩)] =
        [⟨1, fun _ => none⟩] ++ (⟨2, fun _ => some "boom"⟩ : CloserSpec) :: [] ∧
      (∀ b ∈ ([] : List CloserSpec), ∀ x, b.f x = none) ∧
      (⟨2, fun _ => some "boom"⟩ : CloserSpec).f none = some "boom" ∧
      (stagePre [FMod.ret (some ⟨1, fun _ => none⟩), FMod.ret (some ⟨2, fun _ => some "boom"⟩)]
          "GET" HandlerB.hok none).pk = none ∧
      (stagePre [FMod.ret (some ⟨1, fun _ => none⟩), FMod.ret (some ⟨2, fun _ => some "boom"⟩)]
          "GET" HandlerB.hok none).mErr = none) ∧
    ((handleRouteExec (Except.ok ["x"])
        [FMod.ret (some ⟨1, fun _ => none⟩), FMod.ret (some ⟨2, fun _ => some "boom"⟩)]
        "GET" HandlerB.hok none).terminal = some "boom" ∧
      (handleRouteExec (Except.ok ["x"])
        [FMod.ret (some ⟨1, fun _ => none⟩), FMod.ret (some ⟨2, fun _ => some "boom"⟩)]
        "GET" HandlerB.hok none).closerRuns = [(2, none), (1, some "boom")]) :=
  ⟨⟨rfl, fun b hb => absurd hb (List.not_mem_nil b), rfl, rfl, rfl⟩,
   (cleanup_discipline.2.2.1 ["x"]
      [FMod.ret (some ⟨1, fun _ => none⟩), FMod.ret (some ⟨2, fun _ => some "boom"⟩)]
      "GET" HandlerB.hok none [⟨1, fun _ => none⟩] [] ⟨2, fun _ => some "boom"⟩ "boom"
      rfl (fun b hb => absurd hb (List.not_mem_nil b)) rfl rfl rfl)⟩

/-- Claim C8: panic containment.  A panic in a field modifier is
recovered as the ordinary error `panic: <p>`, the handler is never
invoked, the cleanups already acquired still run in reverse acquisition
order (each handed the recovered error), and the wrapped error reaches
the router's error handler.  A panic in the handler is recovered the
same way after all fields populated: the encoder never runs, the
cleanups run in reverse order, and `panic: <p>` is the terminal error.
Inside one field, a sub-modifier panic is recovered by the combined
modifier's own deferred block, the field's already-acquired cleanups run
in reverse order, and the field reports `panic: <p>`. -/
theorem panic_containment :
    (∀ (segs : List String) (F : List FMod) (p : String) (rest : List FMod) (method : String)
       (hB : HandlerB) (encB : Option String),
      (∀ m ∈ F, ∃ cl, m = FMod.ret cl) →
      (handleRouteExec (Except.ok segs) (F ++ FMod.panics p :: rest) method hB encB).terminal =
          some ("panic: " ++ p) ∧
        (handleRouteExec (Except.ok segs) (F ++ FMod.panics p :: rest) method hB encB).handlerInvoked = false ∧
        (handleRouteExec (Except.ok segs) (F ++ FMod.panics p :: rest) method hB encB).closerRuns =
          (acquiredClosers F).reverse.map (fun c => (c.id, some ("panic: " ++ p))) ∧
        dispatchToErrorHandler (handleRouteExec (Except.ok segs) (F ++ FMod.panics p :: rest) method hB encB) =
          some ("handling request: " ++ ("panic: " ++ p)))
  ∧ (∀ (segs : List String) (fields : List FMod) (p : String) (method : String)
       (encB : Option String),
      (∀ m ∈ fields, ∃ cl, m = FMod.ret cl) →
      method ≠ "HEAD" →
      (handleRouteExec (Except.ok segs) fields method (HandlerB.hpanics p) encB).terminal =
          some ("panic: " ++ p) ∧
        (handleRouteExec (Except.ok segs) fields method (HandlerB.hpanics p) encB).encoderInvoked = false ∧
        (handleRouteExec (Except.ok segs) fields method (HandlerB.hpanics p) encB).closerRuns =
          (acquiredClosers fields).reverse.map (fun c => (c.id, some ("panic: " ++ p))))
  ∧ (∀ (S : List FMod) (p : String) (rest : List FMod),
      (∀ m ∈ S, ∃ cl, m = FMod.ret cl) →
      (combinedRun (S ++ FMod.panics p :: rest)).1 =
          (acquiredClosers S).reverse.map (fun c => (c.id, some ("panic: " ++ p))) ∧
        (combinedRun (S ++ FMod.panics p :: rest)).2 = Except.error ("panic: " ++ p)) := by
  refine ⟨?_, ?_, ?_⟩
  · intro segs F p rest method hB encB hF
    have hfl := fieldsLoop_append_ret F (FMod.panics p :: rest) hF
    have htail : fieldsLoop (FMod.panics p :: rest) = ([], (none, some p)) := rfl
    rw [htail] at hfl
    have hst : stagePre (F ++ FMod.panics p :: rest) method hB encB =
        ⟨(fieldsLoop F).1, some p, none, false, false⟩ := by
      simp [stagePre, hfl]
    refine ⟨?_, ?_, ?_, ?_⟩ <;>
      simp [handleRouteExec, hst, runCloserStack_panic, dispatchToErrorHandler, acquiredClosers]
  · intro segs fields p method encB hF hm
    rcases hres : fieldsLoop fields with ⟨acq, o1, o2⟩
    have ho : o1 = none ∧ o2 = none := by
      have h := fieldsLoop_all_ret fields hF
      rw [hres] at h
      have h2 : ((o1, o2) : Option String × Option String) = (none, none) := by
        have := congrArg Prod.snd h
        simpa using this
      exact ⟨congrArg Prod.fst h2, congrArg Prod.snd h2⟩
    have hst : stagePre fields method (HandlerB.hpanics p) encB = ⟨acq, some p, none, true, false⟩ := by
      simp [stagePre, hres, ho.1, ho.2, hm]
    have hacq : acquiredClosers fields = acq := by simp [acquiredClosers, hres]
    refine ⟨?_, ?_, ?_⟩ <;>
      simp [handleRouteExec, hst, runCloserStack_panic, hacq]
  · intro S p rest hS
    have hfl := fieldsLoop_append_ret S (FMod.panics p :: rest) hS
    have htail : fieldsLoop (FMod.panics p :: rest) = ([], (none, some p)) := rfl
    rw [htail] at hfl
    constructor
    · simp [combinedRun, hfl, acquiredClosers]
    · simp [combinedRun, hfl]

/-- Witness for C8: a modifier panics after one cleanup was acquired;
the panic becomes `panic: die`, the handler never runs, the acquired
cleanup still runs handed the recovered error, and the error handler
receives the wrapped error. -/
theorem panic_containment_witness :
    (∀ m ∈ [FMod.ret (some ⟨1, fun _ => none⟩)], ∃ cl, m = FMod.ret cl) ∧
    ((handleRouteExec (Except.ok ["x"]) ([FMod.ret (some ⟨1, fun _ => none⟩)] ++ FMod.panics "die" :: [])
        "GET" HandlerB.hok none).terminal = some ("panic: " ++ "die") ∧
      (handleRouteExec (Except.ok ["x"]) ([FMod.ret (some ⟨1, fun _ => none⟩)] ++ FMod.panics "die" :: [])
        "GET" HandlerB.hok none).handlerInvoked = false ∧
      (handleRouteExec (Except.ok ["x"]) ([FMod.ret (some ⟨1, fun _ => none⟩)] ++ FMod.panics "die" :: [])
        "GET" HandlerB.hok none).closerRuns =
        (acquiredClosers [FMod.ret (some ⟨1, fun _ => none⟩)]).reverse.map
          (fun c => (c.id, some ("panic: " ++ "die"))) ∧
      dispatchToErrorHandler (handleRouteExec (Except.ok ["x"])
          ([FMod.ret (some ⟨1, fun _ => none⟩)] ++ FMod.panics "die" :: [])
          "GET" HandlerB.hok none) =
        some ("handling request: " ++ ("panic: " ++ "die"))) :=
  ⟨fun m hm => ⟨some ⟨1, fun _ => none⟩, by simpa using hm⟩,
   panic_containment.1 ["x"] [FMod.ret (some ⟨1, fun _ => none⟩)] "die" [] "GET" HandlerB.hok none
     (fun m hm => ⟨some ⟨1, fun _ => none⟩, by simpa using hm⟩)⟩

/-- Claim C9: HEAD symmetry.  A HEAD request is served from the GET
root; its outcome is entirely independent of the handler's and encoder's
behaviour (neither runs, so no handler or encoding error can ever be
reported), the handler is never invoked, no response body is encoded,
and exactly the same cleanups run in exactly the same order as for the
corresponding GET request. -/
theorem head_symmetry :
    (∀ (H : Type) (r : RouterS H), r.node "HEAD" = r.node "GET")
  ∧ (∀ (segs : List String) (fields : List FMod) (hB hB2 : HandlerB) (encB encB2 : Option String),
      handleRouteExec (Except.ok segs) fields "HEAD" hB encB =
        handleRouteExec (Except.ok segs) fields "HEAD" hB2 encB2)
  ∧ (∀ (segs : List String) (fields : List FMod) (hB : HandlerB) (encB : Option String),
      (handleRouteExec (Except.ok segs) fields "HEAD" hB encB).handlerInvoked = false ∧
        (handleRouteExec (Except.ok segs) fields "HEAD" hB encB).encoderInvoked = false)
  ∧ (∀ (segs : List String) (fields : List FMod) (hB : HandlerB) (encB : Option String),
      (handleRouteExec (Except.ok segs) fields "HEAD" hB encB).closerRuns.map Prod.fst =
        (handleRouteExec (Except.ok segs) fields "GET" hB encB).closerRuns.map Prod.fst) := by
  refine ⟨?_, ?_, ?_, ?_⟩
  · intro H r
    rfl
  · intro segs fields hB hB2 encB encB2
    simp only [handleRouteExec, stagePre_head_eq fields hB hB2 encB encB2]
  · intro segs fields hB encB
    obtain ⟨h1, h2⟩ := stagePre_head_flags fields hB encB
    exact ⟨by simp [handleRouteExec, h1], by simp [handleRouteExec, h2]⟩
  · intro segs fields hB encB
    rw [handleRouteExec_runs_ids, handleRouteExec_runs_ids]

lemma noRemainder_mk {H : Type} (cs : List (String × Node H)) (child : Option (Node H))
    (ar : Bool) (hd : Option H) :
    noRemainder (Node.mk cs child ar hd) =
      (!ar && noRemainder.noRemainderList cs &&
        (match child with
         | some d => noRemainder d
         | none => true)) := by
  cases child <;> rfl

lemma nrl_nil {H : Type} : noRemainder.noRemainderList ([] : List (String × Node H)) = true := rfl

lemma nrl_cons {H : Type} (b : String) (m : Node H) (rest : List (String × Node H)) :
    noRemainder.noRemainderList ((b, m) :: rest) =
      (noRemainder m && noRemainder.noRemainderList rest) := rfl

lemma noRem_findChild {H : Type} (cs : List (String × Node H)) (a : String) (c : Node H)
    (hlist : noRemainder.noRemainderList cs = true) (hfind : findChild cs a = some c) :
    noRemainder c = true := by
  induction cs with
  | nil => simp [findChild] at hfind
  | cons p rest ih =>
    obtain ⟨b, m⟩ := p
    rw [nrl_cons, Bool.and_eq_true] at hlist
    by_cases hba : b = a
    · have hm : m = c := by simpa [findChild, hba] using hfind
      subst hm
      exact hlist.1
    · exact ih hlist.2 (by simpa [findChild, hba] using hfind)

lemma noRem_insertChild {H : Type} (cs : List (String × Node H)) (a : String) (m : Node H)
    (hlist : noRemainder.noRemainderList cs = true) (hm : noRemainder m = true) :
    noRemainder.noRemainderList (insertChild cs a m) = true := by
  induction cs with
  | nil => simp [insertChild, nrl_cons, nrl_nil, hm]
  | cons p rest ih =>
    obtain ⟨b, n0⟩ := p
    rw [nrl_cons, Bool.and_eq_true] at hlist
    by_cases hba : b = a
    · rw [show insertChild ((b, n0) :: rest) a m = (a, m) :: rest from by simp [insertChild, hba],
          nrl_cons]
      simp [hm, hlist.2]
    · rw [show insertChild ((b, n0) :: rest) a m = (b, n0) :: insertChild rest a m from by
            simp [insertChild, hba],
          nrl_cons]
      simp [hlist.1, ih hlist.2]

lemma noRem_emptyNode {H : Type} : noRemainder (emptyNode (H := H)) = true := rfl

lemma noRem_addRoute {H : Type} (s : List Step) (n : Node H) (h : H)
    (hnr : noRemainder n = true) : noRemainder (addRoute n s h) = true := by
  induction s generalizing n with
  | nil =>
    rcases n with ⟨cs, child, ar, hd⟩
    rw [show addRoute (Node.mk cs child ar hd) [] h = Node.mk cs child ar (some h) from rfl,
        noRemainder_mk]
    rw [noRemainder_mk] at hnr
    exact hnr
  | cons st s' ih =>
    rcases n with ⟨cs, child, ar, hd⟩
    rw [noRemainder_mk, Bool.and_eq_true, Bool.and_eq_true] at hnr
    obtain ⟨⟨har, hlist⟩, hchild⟩ := hnr
    cases st with
    | fixed a =>
      cases hfc : findChild cs a with
      | some c =>
        rw [show addRoute (Node.mk cs child ar hd) (Step.fixed a :: s') h =
              Node.mk (insertChild cs a (addRoute c s' h)) child ar hd from by
            simp [addRoute, hfc],
          noRemainder_mk]
        simp only [Bool.and_eq_true]
        exact ⟨⟨har, noRem_insertChild cs a _ hlist (ih c (noRem_findChild cs a c hlist hfc))⟩, hchild⟩
      | none =>
        rw [show addRoute (Node.mk cs child ar hd) (Step.fixed a :: s') h =
              Node.mk (insertChild cs a (addRoute emptyNode s' h)) child ar hd from by
            simp [addRoute, hfc],
          noRemainder_mk]
        simp only [Bool.and_eq_true]
        exact ⟨⟨har, noRem_insertChild cs a _ hlist (ih emptyNode noRem_emptyNode)⟩, hchild⟩
    | var =>
      cases hchd : child with
      | some d =>
        rw [show addRoute (Node.mk cs (some d) ar hd) (Step.var :: s') h =
              Node.mk cs (some (addRoute d s' h)) ar hd from rfl,
          noRemainder_mk]
        simp only [Bool.and_eq_true]
        rw [hchd] at hchild
        exact ⟨⟨har, hlist⟩, ih d hchild⟩
      | none =>
        rw [show addRoute (Node.mk cs none ar hd) (Step.var :: s') h =
              Node.mk cs (some (addRoute emptyNode s' h)) ar hd from rfl,
          noRemainder_mk]
        simp only [Bool.and_eq_true]
        exact ⟨⟨har, hlist⟩, ih emptyNode noRem_emptyNode⟩

lemma noRem_ensurePath {H : Type} (s : List Step) (n : Node H)
    (hnr : noRemainder n = true) : noRemainder (ensurePath n s) = true := by
  induction s generalizing n with
  | nil => exact hnr
  | cons st s' ih =>
    rcases n with ⟨cs, child, ar, hd⟩
    rw [noRemainder_mk, Bool.and_eq_true, Bool.and_eq_true] at hnr
    obtain ⟨⟨har, hlist⟩, hchild⟩ := hnr
    cases st with
    | fixed a =>
      cases hfc : findChild cs a with
      | some c =>
        rw [show ensurePath (Node.mk cs child ar hd) (Step.fixed a :: s') =
              Node.mk (insertChild cs a (ensurePath c s')) child ar hd from by
            simp [ensurePath, hfc],
          noRemainder_mk]
        simp only [Bool.and_eq_true]
        exact ⟨⟨har, noRem_insertChild cs a _ hlist (ih c (noRem_findChild cs a c hlist hfc))⟩, hchild⟩
      | none =>
        rw [show ensurePath (Node.mk cs child ar hd) (Step.fixed a :: s') =
              Node.mk (insertChild cs a (ensurePath emptyNode s')) child ar hd from by
            simp [ensurePath, hfc],
          noRemainder_mk]
        simp only [Bool.and_eq_true]
        exact ⟨⟨har, noRem_insertChild cs a _ hlist (ih emptyNode noRem_emptyNode)⟩, hchild⟩
    | var =>
      cases hchd : child with
      | some d =>
        rw [show ensurePath (Node.mk cs (some d) ar hd) (Step.var :: s') =
              Node.mk cs (some (ensurePath d s')) ar hd from rfl,
          noRemainder_mk]
        simp only [Bool.and_eq_true]
        rw [hchd] at hchild
        exact ⟨⟨har, hlist⟩, ih d hchild⟩
      | none =>
        rw [show ensurePath (Node.mk cs none ar hd) (Step.var :: s') =
              Node.mk cs (some (ensurePath emptyNode s')) ar hd from rfl,
          noRemainder_mk]
        simp only [Bool.and_eq_true]
        exact ⟨⟨har, hlist⟩, ih emptyNode noRem_emptyNode⟩

lemma compileLoop_noRem {H : Type} (r : RouterS H) (fs : List FieldSpec) (root : Node H)
    (cur : List Step) (hnr : noRemainder root = true) :
    noRemainder (compileLoop r fs root cur).1 = true := by
  induction fs generalizing root cur with
  | nil => exact hnr
  | cons f rest ih =>
    simp only [compileLoop]
    by_cases hexp : f.exported = false
    · simp [hexp, hnr]
    · simp only [if_neg hexp]
      cases hopt : routeOption r f with
      | none => exact hnr
      | some opt =>
        cases herr : (opt f).2 with
        | some e =>
          simp only [herr]
          exact noRem_ensurePath _ root hnr
        | none =>
          simp only [herr]
          exact ih (ensurePath root (cur ++ (opt f).1)) (cur ++ (opt f).1)
            (noRem_ensurePath _ root hnr)

lemma routeHandler_noRem {H : Type} (r : RouterS H) (root : Node H) (fields : List FieldSpec)
    (h : H) (hnr : noRemainder root = true) :
    noRemainder (routeHandler r root fields h).1 = true := by
  have hcl := compileLoop_noRem r fields root [] hnr
  rcases hres : compileLoop r fields root [] with ⟨root2, cur, err⟩
  rw [hres] at hcl
  cases err with
  | none => simpa [routeHandler, hres] using noRem_addRoute cur root2 h hcl
  | some e => simpa [routeHandler, hres] using hcl

lemma noRemRouter_empty {H : Type} : noRemRouter (emptyRouter (H := H)) :=
  ⟨rfl, rfl, rfl, rfl⟩

lemma noRemRouter_setRoot {H : Type} (r : RouterS H) (m : RMethod) (n : Node H)
    (hr : noRemRouter r) (hn : noRemainder n = true) : noRemRouter (r.setRoot m n) := by
  obtain ⟨h1, h2, h3, h4⟩ := hr
  cases m
  · exact ⟨hn, h2, h3, h4⟩
  · exact ⟨h1, hn, h3, h4⟩
  · exact ⟨h1, h2, hn, h4⟩
  · exact ⟨h1, h2, h3, hn⟩

lemma node_noRem {H : Type} (r : RouterS H) (method : String) (hr : noRemRouter r) :
    noRemainder (r.node method) = true := by
  obtain ⟨h1, h2, h3, h4⟩ := hr
  simp only [RouterS.node]
  split_ifs <;> first | exact h1 | exact h2 | exact h3 | exact h4 | rfl

lemma buildFrom_noRem {H : Type} (opts : List (OptionR H)) (r r2 : RouterS H)
    (hr : noRemRouter r) (hok : buildFrom r opts = Except.ok r2) : noRemRouter r2 := by
  induction opts generalizing r with
  | nil =>
    have : r = r2 := by simpa [buildFrom] using hok
    exact this ▸ hr
  | cons o os ih =>
    cases o with
    | byName n opt =>
      refine ih _ ?_ (by simpa [buildFrom, applyOption] using hok)
      exact ⟨hr.1, hr.2.1, hr.2.2.1, hr.2.2.2⟩
    | byType t opt =>
      refine ih _ ?_ (by simpa [buildFrom, applyOption] using hok)
      exact ⟨hr.1, hr.2.1, hr.2.2.1, hr.2.2.2⟩
    | handle m fields h =>
      rcases hrh : routeHandler r (r.root m) fields h with ⟨rt, err⟩
      have hnt : noRemainder rt = true := by
        have := routeHandler_noRem r (r.root m) fields h (by cases m <;> [exact hr.1; exact hr.2.1; exact hr.2.2.1; exact hr.2.2.2])
        rw [hrh] at this
        exact this
      cases err with
      | some e =>
        exfalso
        simp [buildFrom, applyOption, hrh] at hok
      | none =>
        refine ih (r.setRoot m rt) (noRemRouter_setRoot r m rt hr hnt) ?_
        simpa [buildFrom, applyOption, hrh] using hok

lemma handlerNR_cons_static_fail {H : Type} (n : Node H) (s : String) (rest : List String)
    (hsf : findChild n.childs s = none ∨
      ∃ c, findChild n.childs s = some c ∧ (Node.HandlerNR c rest).2 = false) :
    Node.HandlerNR n (s :: rest) =
      (match n.child with
       | some d => Node.HandlerNR d rest
       | none => (none, false)) := by
  rcases hsf with hnone | ⟨c, hfind, hfail⟩
  · simp only [Node.HandlerNR, hnone]
  · rcases hP : Node.HandlerNR c rest with ⟨h2, b⟩
    rw [hP] at hfail
    simp only at hfail
    subst hfail
    simp only [Node.HandlerNR, hfind, hP]

lemma handlerNR_cons_static_ok {H : Type} (n : Node H) (s : String) (rest : List String)
    (c : Node H) (h : Option H) (hfind : findChild n.childs s = some c)
    (hok : Node.HandlerNR c rest = (h, true)) :
    Node.HandlerNR n (s :: rest) = (h, true) := by
  simp only [Node.HandlerNR, hfind, hok]

lemma handler_eq_handlerNR {H : Type} :
    ∀ (path : List String) (n : Node H), noRemainder n = true →
      Node.Handler n path = Node.HandlerNR n path := by
  intro path
  induction path with
  | nil => intro n _; rfl
  | cons x rest ih =>
    intro n hnr
    rcases n with ⟨cs, child, ar, hd⟩
    rw [noRemainder_mk, Bool.and_eq_true, Bool.and_eq_true] at hnr
    obtain ⟨⟨har, hlist⟩, hchild⟩ := hnr
    have har2 : ar = false := by simpa using har
    subst har2
    cases child with
    | some d =>
      have hd2 : noRemainder d = true := by simpa using hchild
      cases hf : findChild cs x with
      | none =>
        rw [handler_cons_static_fail _ x rest (Or.inl (by simpa using hf)),
            handlerNR_cons_static_fail _ x rest (Or.inl (by simpa using hf))]
        simpa using ih d hd2
      | some c =>
        have hc : noRemainder c = true := noRem_findChild cs x c hlist hf
        have hrec := ih c hc
        rcases hcr : Node.HandlerNR c rest with ⟨hh, b⟩
        rw [hcr] at hrec
        cases b with
        | true =>
          rw [handler_cons_static_ok _ x rest c hh (by simpa using hf) hrec,
              handlerNR_cons_static_ok _ x rest c hh (by simpa using hf) hcr]
        | false =>
          rw [handler_cons_static_fail _ x rest (Or.inr ⟨c, by simpa using hf, by rw [hrec]⟩),
              handlerNR_cons_static_fail _ x rest (Or.inr ⟨c, by simpa using hf, by rw [hcr]⟩)]
          simpa using ih d hd2
    | none =>
      cases hf : findChild cs x with
      | none =>
        rw [handler_cons_static_fail _ x rest (Or.inl (by simpa using hf)),
            handlerNR_cons_static_fail _ x rest (Or.inl (by simpa using hf))]
        simp
      | some c =>
        have hc : noRemainder c = true := noRem_findChild cs x c hlist hf
        have hrec := ih c hc
        rcases hcr : Node.HandlerNR c rest with ⟨hh, b⟩
        rw [hcr] at hrec
        cases b with
        | true =>
          rw [handler_cons_static_ok _ x rest c hh (by simpa using hf) hrec,
              handlerNR_cons_static_ok _ x rest c hh (by simpa using hf) hcr]
        | false =>
          rw [handler_cons_static_fail _ x rest (Or.inr ⟨c, by simpa using hf, by rw [hrec]⟩),
              handlerNR_cons_static_fail _ x rest (Or.inr ⟨c, by simpa using hf, by rw [hcr]⟩)]
          simp

/-- Claim C10 (implicit invariant): no operation of the public
registration surface ever sets `allowRemainder`.  Every router built
successfully through `New` with the modelled options has
`allowRemainder = false` at every reachable node of every method's trie,
and lookup on such a router coincides everywhere with the lookup variant
whose remainder branch is deleted — the catch-all branch is unreachable,
so no registrable route can absorb a deeper unmatched path suffix. -/
theorem no_remainder_via_public_api (H : Type) :
    ∀ (opts : List (OptionR H)) (r : RouterS H),
      build opts = Except.ok r →
      (∀ method : String, noRemainder (r.node method) = true) ∧
      (∀ (method : String) (path : List String),
        Node.Handler (r.node method) path = Node.HandlerNR (r.node method) path) := by
  intro opts r hok
  have hr : noRemRouter r := buildFrom_noRem opts emptyRouter r noRemRouter_empty hok
  refine ⟨fun method => node_noRem r method hr, fun method path => ?_⟩
  exact handler_eq_handlerNR path (r.node method) (node_noRem r method hr)

/-- Witness for C10: the concrete router built from `c10Opts` is
remainder-free and its GET lookups agree with the remainder-less lookup. -/
theorem no_remainder_via_public_api_witness :
    build c10Opts = Except.ok c10Router ∧
    noRemainder (c10Router.node "GET") = true ∧
    Node.Handler (c10Router.node "GET") ["foo", "bar"] =
      Node.HandlerNR (c10Router.node "GET") ["foo", "bar"] :=
  ⟨rfl,
   (no_remainder_via_public_api Nat c10Opts c10Router rfl).1 "GET",
   (no_remainder_via_public_api Nat c10Opts c10Router rfl).2 "GET" ["foo", "bar"]⟩

/-- Witness for the amended C1: a remainder node with no dynamic child
swallows the two remaining segments and reports its own handler. -/
theorem remainder_swallows_iff_no_dynamic_witness :
    (Node.mk [] none true (some 5) : Node Nat).allowRemainder = true ∧
    (Node.mk [] none true (some 5) : Node Nat).child = none ∧
    staticFails (Node.mk [] none true (some 5) : Node Nat) "x" ["y"] ∧
    Node.Handler (Node.mk [] none true (some 5) : Node Nat) ["x", "y"] = (some 5, true) :=
  ⟨rfl, rfl, Or.inl rfl,
   (remainder_swallows_iff_no_dynamic Nat).1 (Node.mk [] none true (some 5)) "x" ["y"] rfl rfl (Or.inl rfl)⟩
